import Mathlib

/-!
Verification of the crawl-scheduler core of the career-crawler repository.

The Python source is shallowly embedded: timestamps are integer seconds,
database tables are lists of rows, SQL statements are translated to list
operations with PostgreSQL semantics (LEFT JOIN, GROUP BY, ON CONFLICT
upserts with NULL-distinct unique keys), and effectful operations
(HTTP fetches, the HTML parser) are parameterised by oracles describing
the environment's responses.
-/

set_option autoImplicit false

namespace Crawler

/-- Wall-clock time, in integer seconds. -/
abbrev Time := Int

/-! ## Data model (src/crawler/database/models.py) -/

/-- Row of the `companies` table. `career_page_url` is UNIQUE,
`company_id` is the primary key. -/
structure Company where
  company_id : Nat
  name : String
  career_page_url : String
  ats_type : Option String
  last_crawled : Option Time
  deriving DecidableEq, Repr

/-- Standardized job record (class `Job` in src/crawler/scrapers/ats_apis.py);
also the shape of the dictionaries serialised into the cache. -/
structure Job where
  title : String
  location : Option String := none
  description : Option String := none
  requirements : Option String := none
  application_url : Option String := none
  posted_date : Option Time := none
  department : Option String := none
  employment_type : Option String := none
  deriving DecidableEq, Repr

/-- Row of the `jobs` table. Unique constraint `unique_job_per_company`
on `(company_id, title, location)`; `job_id` is the primary key. -/
structure JobRow where
  job_id : Nat
  company_id : Nat
  title : String
  description : Option String
  requirements : Option String
  location : Option String
  application_url : Option String
  posted_date : Option Time
  scraped_at : Time
  is_active : Bool
  created_at : Time
  updated_at : Time
  deriving DecidableEq, Repr

/-- Row of the `job_cache` table; `company_id` is the primary key. -/
structure CacheRow where
  company_id : Nat
  jobs : List Job
  job_count : Nat
  crawled_at : Time
  expires_at : Time
  ats_type : Option String
  crawl_duration_ms : Int
  created_at : Time
  updated_at : Time
  deriving DecidableEq, Repr

/-- Row of the `company_subscriptions` table (user UUIDs are coded as Nat). -/
structure Subscription where
  user_id : Nat
  company_id : Nat
  deriving DecidableEq, Repr

/-- The database state relevant to the scheduler core. -/
structure DBState where
  companies : List Company
  jobs : List JobRow
  job_cache : List CacheRow
  subs : List Subscription
  deriving Repr

/-! ## Priority queue builder (src/crawler/task_queue/builder.py) -/

/-- `CrawlPriority` (IntEnum CRITICAL=1 .. BACKGROUND=5). -/
inductive CrawlPriority
  | critical
  | high
  | normal
  | low
  | background
  deriving DecidableEq, Repr

/-- Numeric value of the IntEnum member. -/
def CrawlPriority.value : CrawlPriority → Nat
  | .critical => 1
  | .high => 2
  | .normal => 3
  | .low => 4
  | .background => 5

/-- Dataclass `CompanyToCrawl`. -/
structure CompanyToCrawl where
  company_id : Nat
  name : String
  career_url : String
  subscriber_count : Nat
  last_crawled : Option Time
  cache_expires_at : Option Time
  ats_type : Option String
  priority : CrawlPriority := .normal
  deriving DecidableEq, Repr

/-- `COUNT(DISTINCT cs.user_id)` over the subscriptions of one company. -/
def distinctSubscriberCount (subs : List Subscription) (cid : Nat) : Nat :=
  (((subs.filter (fun s => s.company_id = cid)).map Subscription.user_id).dedup).length

/-- The `jc.expires_at` values produced by `LEFT JOIN job_cache jc ON
c.company_id = jc.company_id` for a single company: one NULL row when the
company has no cache entry, otherwise one value per matching cache row. -/
def leftJoinCacheExpires (cache : List CacheRow) (cid : Nat) : List (Option Time) :=
  let m := (cache.filter (fun r => r.company_id = cid)).map (fun r => some r.expires_at)
  if m.isEmpty then [none] else m

/-- The distinct `GROUP BY ... jc.expires_at` keys for one company in the
all-subscribed query (all other grouping columns are functionally
determined by the company). -/
def expiresGroupKeys (cache : List CacheRow) (cid : Nat) : List (Option Time) :=
  (leftJoinCacheExpires cache cid).dedup

/-- `ORDER BY subscriber_count DESC, c.last_crawled ASC NULLS FIRST`:
comparison on the secondary key. -/
def nullsFirstLE : Option Time → Option Time → Bool
  | none, _ => true
  | some _, none => false
  | some x, some y => x ≤ y

/-- The ordering used by both aggregation queries. -/
def queryLE (a b : CompanyToCrawl) : Bool :=
  if a.subscriber_count = b.subscriber_count then
    nullsFirstLE a.last_crawled b.last_crawled
  else
    b.subscriber_count < a.subscriber_count

/-- Cache-expiry test in `QueueBuilder._calculate_priority`:
`cache_expires_at is None or cache_expires_at < now`. -/
def cacheExpired (now : Time) (c : CompanyToCrawl) : Bool :=
  match c.cache_expires_at with
  | none => true
  | some t => t < now

/-- `QueueBuilder._calculate_priority`. -/
def calculatePriority (now : Time) (c : CompanyToCrawl) : CrawlPriority :=
  if cacheExpired now c ∧ 5 ≤ c.subscriber_count then .critical
  else if 5 ≤ c.subscriber_count then .high
  else if 1 ≤ c.subscriber_count then .normal
  else if c.subscriber_count = 0 ∧ cacheExpired now c then .low
  else .background

/-- One result row of either aggregation query, before priority assignment. -/
def mkQueueRow (subs : List Subscription) (c : Company) (exp : Option Time) :
    CompanyToCrawl :=
  { company_id := c.company_id
    name := c.name
    career_url := c.career_page_url
    subscriber_count := distinctSubscriberCount subs c.company_id
    last_crawled := c.last_crawled
    cache_expires_at := exp
    ats_type := c.ats_type
    priority := .normal }

/-- `QueueBuilder.get_subscribed_companies`: group rows, keep companies with
`HAVING COUNT(DISTINCT cs.user_id) > 0`, order, then assign priorities. -/
def getSubscribedCompanies (st : DBState) (now : Time) : List CompanyToCrawl :=
  let rows := st.companies.flatMap (fun c =>
    (expiresGroupKeys st.job_cache c.company_id).map (mkQueueRow st.subs c))
  let rows := rows.filter (fun r => 0 < r.subscriber_count)
  let rows := rows.mergeSort queryLE
  rows.map (fun r => { r with priority := calculatePriority now r })

/-- WHERE clause of `QueueBuilder.get_stale_companies`. -/
def staleWhere (now cutoff : Time) (r : CompanyToCrawl) : Bool :=
  (match r.cache_expires_at with
   | none => true
   | some t => t < now) ||
  (match r.last_crawled with
   | none => true
   | some t => t < cutoff)

/-- `QueueBuilder.get_stale_companies` with TTL `ttlHours`
(`cutoff = now - ttl hours`). -/
def getStaleCompanies (ttlHours : Nat) (st : DBState) (now : Time) :
    List CompanyToCrawl :=
  let cutoff : Time := now - (ttlHours : Int) * 3600
  let rows := st.companies.flatMap (fun c =>
    (leftJoinCacheExpires st.job_cache c.company_id).map (mkQueueRow st.subs c))
  let rows := rows.filter (staleWhere now cutoff)
  let rows := rows.mergeSort queryLE
  rows.map (fun r => { r with priority := calculatePriority now r })

/-- The final sort key of `build_queue`:
`(c.priority.value, -c.subscriber_count)` ascending. -/
def buildQueueLE (a b : CompanyToCrawl) : Bool :=
  if a.priority.value = b.priority.value then
    b.subscriber_count ≤ a.subscriber_count
  else
    a.priority.value < b.priority.value

/-- `QueueBuilder.build_queue` (the returned list; statistics aside). -/
def buildQueue (ttlHours : Nat) (st : DBState) (now : Time)
    (includeAll : Bool) : List CompanyToCrawl :=
  let companies :=
    if includeAll then getSubscribedCompanies st now
    else getStaleCompanies ttlHours st now
  companies.mergeSort buildQueueLE

/-! ## Deduplication of the queue builder (C1) -/

/-- In a table whose key column is duplicate-free, filtering on one key
value yields at most one row. -/
theorem filter_key_length_le_one (cache : List CacheRow) (cid : Nat)
    (h : (cache.map CacheRow.company_id).Nodup) :
    (cache.filter (fun r => r.company_id = cid)).length ≤ 1 := by
  induction cache with
  | nil => simp
  | cons r rest ih =>
    simp only [List.map_cons, List.nodup_cons] at h
    by_cases hr : r.company_id = cid
    · have hrest : rest.filter (fun r => r.company_id = cid) = [] := by
        rw [List.filter_eq_nil_iff]
        intro x hx
        simp only [decide_eq_true_eq]
        intro hxcid
        exact h.1 (by
          rw [List.mem_map]
          exact ⟨x, hx, by rw [hxcid, hr]⟩)
      simp [List.filter_cons, hr, hrest]
    · simpa [List.filter_cons, hr] using ih h.2

theorem leftJoinCacheExpires_length_eq_one (cache : List CacheRow) (cid : Nat)
    (h : (cache.map CacheRow.company_id).Nodup) :
    (leftJoinCacheExpires cache cid).length = 1 := by
  have hle := filter_key_length_le_one cache cid h
  unfold leftJoinCacheExpires
  by_cases he : ((cache.filter (fun r => r.company_id = cid)).map
      (fun r => some r.expires_at)).isEmpty
  · simp [he]
  · simp only [he, if_neg, Bool.false_eq_true, not_false_iff, if_false]
    rw [List.isEmpty_iff] at he
    have hlen : ((cache.filter (fun r => r.company_id = cid)).map
        (fun r => some r.expires_at)).length ≤ 1 := by
      simpa using hle
    interval_cases hlc : ((cache.filter (fun r => r.company_id = cid)).map
        (fun r => some r.expires_at)).length
    · exact absurd (List.length_eq_zero.mp hlc) he
    · rfl

theorem expiresGroupKeys_length_le_one (cache : List CacheRow) (cid : Nat)
    (h : (cache.map CacheRow.company_id).Nodup) :
    (expiresGroupKeys cache cid).length ≤ 1 := by
  calc (expiresGroupKeys cache cid).length
      ≤ (leftJoinCacheExpires cache cid).length :=
        List.Sublist.length_le (List.dedup_sublist _)
    _ = 1 := leftJoinCacheExpires_length_eq_one cache cid h

/-- If each company contributes at most one row, and every contributed row
carries that company's id, the flattened row list has duplicate-free ids. -/
theorem flatMap_rows_nodup (companies : List Company)
    (f : Company → List CompanyToCrawl)
    (hlen : ∀ c, (f c).length ≤ 1)
    (hid : ∀ c r, r ∈ f c → r.company_id = c.company_id)
    (hc : (companies.map Company.company_id).Nodup) :
    ((companies.flatMap f).map CompanyToCrawl.company_id).Nodup := by
  induction companies with
  | nil => simp
  | cons c rest ih =>
    simp only [List.map_cons, List.nodup_cons] at hc
    rw [List.flatMap_cons, List.map_append, List.nodup_append]
    refine ⟨?_, ih hc.2, ?_⟩
    · have := hlen c
      match hfc : f c with
      | [] => simp
      | [r] => simp
      | r₁ :: r₂ :: t => rw [hfc] at this; simp at this
    · intro x hx hx2
      rw [List.mem_map] at hx hx2
      obtain ⟨r, hr, hrx⟩ := hx
      obtain ⟨r2, hr2, hr2y⟩ := hx2
      rw [List.mem_flatMap] at hr2
      obtain ⟨c2, hc2, hr2c2⟩ := hr2
      have hxc : x = c.company_id := by rw [← hrx, hid c r hr]
      have hyc : x = c2.company_id := by rw [← hr2y, hid c2 r2 hr2c2]
      apply hc.1
      rw [List.mem_map]
      exact ⟨c2, hc2, by rw [← hyc, hxc]⟩

theorem mkQueueRow_company_id (subs : List Subscription) (c : Company)
    (exp : Option Time) : (mkQueueRow subs c exp).company_id = c.company_id := rfl

/-- Ids survive the post-query processing (filter, sort, priority
assignment) without duplication. -/
theorem processed_nodup (rows : List CompanyToCrawl)
    (p : CompanyToCrawl → Bool) (le : CompanyToCrawl → CompanyToCrawl → Bool)
    (g : CompanyToCrawl → CompanyToCrawl)
    (hg : ∀ r, (g r).company_id = r.company_id)
    (h : (rows.map CompanyToCrawl.company_id).Nodup) :
    ((((rows.filter p).mergeSort le).map g).map CompanyToCrawl.company_id).Nodup := by
  have h1 : ((rows.filter p).map CompanyToCrawl.company_id).Nodup :=
    ((List.filter_sublist rows).map CompanyToCrawl.company_id).nodup h
  have h2 : List.Perm
      (((rows.filter p).mergeSort le).map CompanyToCrawl.company_id)
      ((rows.filter p).map CompanyToCrawl.company_id) :=
    (List.mergeSort_perm (rows.filter p) le).map CompanyToCrawl.company_id
  have h3 : (((rows.filter p).mergeSort le).map CompanyToCrawl.company_id).Nodup :=
    (h2.nodup_iff).mpr h1
  have h4 : (((rows.filter p).mergeSort le).map g).map CompanyToCrawl.company_id =
      ((rows.filter p).mergeSort le).map CompanyToCrawl.company_id := by
    rw [List.map_map]
    exact List.map_congr_left (fun r _ => hg r)
  rw [h4]
  exact h3

theorem getSubscribedCompanies_nodup (st : DBState) (now : Time)
    (hc : (st.companies.map Company.company_id).Nodup)
    (hj : (st.job_cache.map CacheRow.company_id).Nodup) :
    ((getSubscribedCompanies st now).map CompanyToCrawl.company_id).Nodup := by
  unfold getSubscribedCompanies
  apply processed_nodup
  · intro r; rfl
  · apply flatMap_rows_nodup
    · intro c
      rw [List.length_map]
      exact expiresGroupKeys_length_le_one st.job_cache c.company_id hj
    · intro c r hr
      rw [List.mem_map] at hr
      obtain ⟨exp, _, hexp⟩ := hr
      rw [← hexp]
      rfl
    · exact hc

theorem getStaleCompanies_nodup (ttl : Nat) (st : DBState) (now : Time)
    (hc : (st.companies.map Company.company_id).Nodup)
    (hj : (st.job_cache.map CacheRow.company_id).Nodup) :
    ((getStaleCompanies ttl st now).map CompanyToCrawl.company_id).Nodup := by
  unfold getStaleCompanies
  apply processed_nodup
  · intro r; rfl
  · apply flatMap_rows_nodup
    · intro c
      rw [List.length_map,
        leftJoinCacheExpires_length_eq_one st.job_cache c.company_id hj]
    · intro c r hr
      rw [List.mem_map] at hr
      obtain ⟨exp, _, hexp⟩ := hr
      rw [← hexp]
      rfl
    · exact hc

/-- C1: for any valid state of the subscription, companies and cache tables
(table states respect the primary keys of `companies` and `job_cache`;
subscriptions are arbitrary), the list returned by
`get_subscribed_companies` (all-subscribed mode), `get_stale_companies`
(stale mode), and hence `build_queue` in either mode, contains each
`company_id` at most once, however many users subscribe to any company. -/
theorem C1_queue_dedup (ttl : Nat) (st : DBState) (now : Time)
    (hc : (st.companies.map Company.company_id).Nodup)
    (hj : (st.job_cache.map CacheRow.company_id).Nodup) :
    ((getSubscribedCompanies st now).map CompanyToCrawl.company_id).Nodup ∧
    ((getStaleCompanies ttl st now).map CompanyToCrawl.company_id).Nodup ∧
    ∀ mode : Bool,
      ((buildQueue ttl st now mode).map CompanyToCrawl.company_id).Nodup := by
  refine ⟨getSubscribedCompanies_nodup st now hc hj,
          getStaleCompanies_nodup ttl st now hc hj, ?_⟩
  intro mode
  have hbase : (((if mode then getSubscribedCompanies st now
      else getStaleCompanies ttl st now)).map CompanyToCrawl.company_id).Nodup := by
    cases mode
    · exact getStaleCompanies_nodup ttl st now hc hj
    · exact getSubscribedCompanies_nodup st now hc hj
  unfold buildQueue
  have hperm : List.Perm
      ((List.mergeSort (if mode then getSubscribedCompanies st now
        else getStaleCompanies ttl st now) buildQueueLE).map
          CompanyToCrawl.company_id)
      (((if mode then getSubscribedCompanies st now
        else getStaleCompanies ttl st now)).map CompanyToCrawl.company_id) :=
    (List.mergeSort_perm _ buildQueueLE).map CompanyToCrawl.company_id
  exact hperm.nodup_iff.mpr hbase

/-- Witness for C1 on a concrete database state: two companies, three
subscriptions (two users on the same company), one cache row. -/
theorem C1_queue_dedup_witness :
    ((getSubscribedCompanies
        { companies :=
            [{ company_id := 1, name := "a", career_page_url := "u1",
               ats_type := none, last_crawled := none },
             { company_id := 2, name := "b", career_page_url := "u2",
               ats_type := none, last_crawled := some 10 }]
          jobs := []
          job_cache :=
            [{ company_id := 1, jobs := [], job_count := 0, crawled_at := 0,
               expires_at := 100, ats_type := none, crawl_duration_ms := 5,
               created_at := 0, updated_at := 0 }]
          subs := [⟨7, 1⟩, ⟨8, 1⟩, ⟨7, 2⟩] } 50).map
        CompanyToCrawl.company_id).Nodup :=
  (C1_queue_dedup 24
    { companies :=
        [{ company_id := 1, name := "a", career_page_url := "u1",
           ats_type := none, last_crawled := none },
         { company_id := 2, name := "b", career_page_url := "u2",
           ats_type := none, last_crawled := some 10 }]
      jobs := []
      job_cache :=
        [{ company_id := 1, jobs := [], job_count := 0, crawled_at := 0,
           expires_at := 100, ats_type := none, crawl_duration_ms := 5,
           created_at := 0, updated_at := 0 }]
      subs := [⟨7, 1⟩, ⟨8, 1⟩, ⟨7, 2⟩] } 50 (by decide) (by decide)).1

/-! ## Priority table and queue ordering (C2) -/

/-- The sort relation of `build_queue`, as a proposition. -/
theorem buildQueueLE_iff (a b : CompanyToCrawl) :
    buildQueueLE a b = true ↔
      a.priority.value < b.priority.value ∨
      (a.priority.value = b.priority.value ∧
        b.subscriber_count ≤ a.subscriber_count) := by
  unfold buildQueueLE
  by_cases h : a.priority.value = b.priority.value <;> simp [h]

theorem buildQueueLE_total (a b : CompanyToCrawl) :
    buildQueueLE a b || buildQueueLE b a := by
  rw [Bool.or_eq_true, buildQueueLE_iff, buildQueueLE_iff]
  omega

theorem buildQueueLE_trans (a b c : CompanyToCrawl) :
    buildQueueLE a b → buildQueueLE b c → buildQueueLE a c := by
  rw [buildQueueLE_iff, buildQueueLE_iff, buildQueueLE_iff]
  omega

/-- `_calculate_priority` ignores the (to-be-overwritten) priority field. -/
theorem calculatePriority_set (now : Time) (c : CompanyToCrawl)
    (p : CrawlPriority) :
    calculatePriority now { c with priority := p } = calculatePriority now c :=
  rfl

theorem buildQueue_mem_priority (ttl : Nat) (st : DBState) (now : Time)
    (mode : Bool) (r : CompanyToCrawl) (hr : r ∈ buildQueue ttl st now mode) :
    r.priority = calculatePriority now r := by
  have hr2 : r ∈ (if mode then getSubscribedCompanies st now
      else getStaleCompanies ttl st now) :=
    (List.mergeSort_perm _ buildQueueLE).subset hr
  have key : ∀ rows : List CompanyToCrawl,
      r ∈ rows.map (fun x => { x with priority := calculatePriority now x }) →
      r.priority = calculatePriority now r := by
    intro rows hmem
    rw [List.mem_map] at hmem
    obtain ⟨x, _, hx⟩ := hmem
    rw [← hx]
    exact (calculatePriority_set now x (calculatePriority now x)).symm
  cases mode with
  | false =>
    simp only [if_neg] at hr2
    unfold getStaleCompanies at hr2
    exact key _ hr2
  | true =>
    simp only [if_pos] at hr2
    unfold getSubscribedCompanies at hr2
    exact key _ hr2

/-- C2: every candidate's priority follows the first matching row of the
spec's table (CRITICAL iff expired ∧ subs ≥ 5; HIGH iff not expired ∧
subs ≥ 5; NORMAL iff 1 ≤ subs < 5; LOW iff subs = 0 ∧ expired;
BACKGROUND iff subs = 0 ∧ not expired), every queue entry carries the
priority computed by `_calculate_priority`, `build_queue` returns its list
sorted by priority ascending with ties broken by subscriber count
descending, and every CRITICAL entry precedes every HIGH entry. -/
theorem C2_priority_order (ttl : Nat) (st : DBState) (now : Time) (mode : Bool) :
    (∀ c : CompanyToCrawl,
      (calculatePriority now c = .critical ↔
        cacheExpired now c = true ∧ 5 ≤ c.subscriber_count) ∧
      (calculatePriority now c = .high ↔
        cacheExpired now c = false ∧ 5 ≤ c.subscriber_count) ∧
      (calculatePriority now c = .normal ↔
        1 ≤ c.subscriber_count ∧ c.subscriber_count < 5) ∧
      (calculatePriority now c = .low ↔
        c.subscriber_count = 0 ∧ cacheExpired now c = true) ∧
      (calculatePriority now c = .background ↔
        c.subscriber_count = 0 ∧ cacheExpired now c = false)) ∧
    (∀ r ∈ buildQueue ttl st now mode, r.priority = calculatePriority now r) ∧
    (buildQueue ttl st now mode).Pairwise (fun a b =>
      a.priority.value < b.priority.value ∨
      (a.priority.value = b.priority.value ∧
        b.subscriber_count ≤ a.subscriber_count)) ∧
    (∀ (i j : Nat) (hi : i < (buildQueue ttl st now mode).length)
        (hj : j < (buildQueue ttl st now mode).length),
      ((buildQueue ttl st now mode).get ⟨i, hi⟩).priority = .critical →
      ((buildQueue ttl st now mode).get ⟨j, hj⟩).priority = .high → i < j) := by
  have hpairwise : (buildQueue ttl st now mode).Pairwise (fun a b =>
      a.priority.value < b.priority.value ∨
      (a.priority.value = b.priority.value ∧
        b.subscriber_count ≤ a.subscriber_count)) := by
    have hs := @List.sorted_mergeSort _ buildQueueLE
      buildQueueLE_trans
      (fun a b => buildQueueLE_total a b)
      (if mode then getSubscribedCompanies st now
       else getStaleCompanies ttl st now)
    unfold buildQueue
    exact hs.imp (fun {a b} h => (buildQueueLE_iff a b).mp h)
  refine ⟨?_, buildQueue_mem_priority ttl st now mode, hpairwise, ?_⟩
  · intro c
    rcases Nat.lt_or_ge c.subscriber_count 5 with hs5 | hs5
    · rcases Nat.eq_zero_or_pos c.subscriber_count with hs0 | hs0
      · have h1 : ¬ 1 ≤ c.subscriber_count := by omega
        have h5 : ¬ 5 ≤ c.subscriber_count := by omega
        by_cases hexp : cacheExpired now c = true
        · simp [calculatePriority, hexp, hs0, h1, h5]
        · rw [Bool.not_eq_true] at hexp
          simp [calculatePriority, hexp, hs0, h1, h5]
      · have h1 : 1 ≤ c.subscriber_count := hs0
        have h5 : ¬ 5 ≤ c.subscriber_count := by omega
        have h0 : ¬ c.subscriber_count = 0 := by omega
        by_cases hexp : cacheExpired now c = true
        · simp [calculatePriority, hexp, h0, h1, h5, hs5]
        · rw [Bool.not_eq_true] at hexp
          simp [calculatePriority, hexp, h0, h1, h5, hs5]
    · have h1 : 1 ≤ c.subscriber_count := by omega
      have h0 : ¬ c.subscriber_count = 0 := by omega
      have hlt : ¬ c.subscriber_count < 5 := by omega
      by_cases hexp : cacheExpired now c = true
      · simp [calculatePriority, hexp, h0, h1, hs5, hlt]
      · rw [Bool.not_eq_true] at hexp
        simp [calculatePriority, hexp, h0, h1, hs5, hlt]
  · intro i j hi hj hcrit hhigh
    rcases Nat.lt_trichotomy i j with h | h | h
    · exact h
    · exfalso
      subst h
      exact absurd (hcrit.symm.trans hhigh) (by decide)
    · exfalso
      have hij := (List.pairwise_iff_get.mp hpairwise) ⟨j, hj⟩ ⟨i, hi⟩ h
      rw [hcrit, hhigh] at hij
      simp [CrawlPriority.value] at hij

/-- Witness for C2 at a concrete state: company 1 (5 subscribers, expired
cache) is CRITICAL and precedes company 2 (6 subscribers, fresh cache,
HIGH) in all-subscribed mode, despite the lower subscriber count. -/
def c2State : DBState :=
  { companies :=
      [{ company_id := 1, name := "a", career_page_url := "u1",
         ats_type := none, last_crawled := some 1 },
       { company_id := 2, name := "b", career_page_url := "u2",
         ats_type := none, last_crawled := some 2 }]
    jobs := []
    job_cache :=
      [{ company_id := 1, jobs := [], job_count := 0, crawled_at := 0,
         expires_at := 10, ats_type := none, crawl_duration_ms := 0,
         created_at := 0, updated_at := 0 },
       { company_id := 2, jobs := [], job_count := 0, crawled_at := 0,
         expires_at := 1000, ats_type := none, crawl_duration_ms := 0,
         created_at := 0, updated_at := 0 }]
    subs := [⟨1, 1⟩, ⟨2, 1⟩, ⟨3, 1⟩, ⟨4, 1⟩, ⟨5, 1⟩,
             ⟨1, 2⟩, ⟨2, 2⟩, ⟨3, 2⟩, ⟨4, 2⟩, ⟨5, 2⟩, ⟨6, 2⟩] }

theorem C2_priority_order_witness : (0 : Nat) < 1 := by
  have hq : buildQueue 24 c2State 50 true =
      [{ company_id := 1, name := "a", career_url := "u1",
         subscriber_count := 5, last_crawled := some 1,
         cache_expires_at := some 10, ats_type := none,
         priority := .critical },
       { company_id := 2, name := "b", career_url := "u2",
         subscriber_count := 6, last_crawled := some 2,
         cache_expires_at := some 1000, ats_type := none,
         priority := .high }] := by
    simp [buildQueue, getSubscribedCompanies, c2State, expiresGroupKeys,
      leftJoinCacheExpires, mkQueueRow, distinctSubscriberCount, queryLE,
      buildQueueLE, calculatePriority, cacheExpired, nullsFirstLE,
      List.mergeSort, List.merge, List.dedup, List.pwFilter,
      CrawlPriority.value]
  have hlen : 1 < (buildQueue 24 c2State 50 true).length := by
    rw [hq]; decide
  have h0 : 0 < (buildQueue 24 c2State 50 true).length := by
    rw [hq]; decide
  refine (C2_priority_order 24 c2State 50 true).2.2.2 0 1 h0 hlen ?_ ?_
  · show ((buildQueue 24 c2State 50 true).get ⟨0, h0⟩).priority = .critical
    simp [hq]
  · show ((buildQueue 24 c2State 50 true).get ⟨1, hlen⟩).priority = .high
    simp [hq]

/-! ## Structured-API router (src/crawler/scrapers/ats_apis.py, C3) -/

/-- ASCII lower-casing of a character list (`str.lower()` / `re.I`). -/
def lowerChars (s : List Char) : List Char := s.map Char.toLower

/-- `re.search` for a plain literal pattern: does `lit` occur in `s`? -/
def containsLit (lit : List Char) (s : List Char) : Bool :=
  match s with
  | [] => lit.isEmpty
  | _ :: rest => lit.isPrefixOf s || containsLit lit rest

/-- `re.search` semantics for the extractor patterns `lit([^/?#]+)`:
the leftmost occurrence of `lit` followed by at least one character outside
`/?#` wins, and the capture group is the maximal such run. -/
def searchLitCapture (lit : List Char) (s : List Char) : Option (List Char) :=
  match s with
  | [] => none
  | _ :: rest =>
    if lit.isPrefixOf s then
      let tok := (s.drop lit.length).takeWhile
        (fun ch => ¬ (ch = '/' ∨ ch = '?' ∨ ch = '#'))
      if tok.isEmpty then searchLitCapture lit rest else some tok
    else searchLitCapture lit rest

/-- `extract_company_slug`: try the extractor patterns in order; a captured
slug in the exclusion list (only Workable uses one) skips to the next
pattern. Matching is on the lower-cased URL, and the captured group is
lower-cased, as in the source. -/
def findSlugExcl (pats : List (List Char)) (excl : List String) (url : String) :
    Option String :=
  match pats with
  | [] => none
  | p :: rest =>
    match searchLitCapture p (lowerChars url.data) with
    | some tok =>
      if excl.contains (String.mk tok) then findSlugExcl rest excl url
      else some (String.mk tok)
    | none => findSlugExcl rest excl url

/-- An ATS API client: its tag, URL predicate and slug extractor
(the capability set used by the router). -/
structure ATSApiClient where
  name : String
  matchesUrl : String → Bool
  extractCompanySlug : String → Option String

def greenhouseAPI : ATSApiClient :=
  { name := "greenhouse"
    matchesUrl := fun url =>
      [("greenhouse.io" : String), "boards.greenhouse.io"].any
        (fun p => containsLit p.data (lowerChars url.data))
    extractCompanySlug := fun url =>
      findSlugExcl
        [("boards.greenhouse.io/" : String).data,
         ("job-boards.greenhouse.io/" : String).data,
         ("greenhouse.io/" : String).data] [] url }

def leverAPI : ATSApiClient :=
  { name := "lever"
    matchesUrl := fun url =>
      [("lever.co" : String), "jobs.lever.co"].any
        (fun p => containsLit p.data (lowerChars url.data))
    extractCompanySlug := fun url =>
      findSlugExcl
        [("jobs.lever.co/" : String).data,
         ("lever.co/" : String).data] [] url }

def ashbyAPI : ATSApiClient :=
  { name := "ashby"
    matchesUrl := fun url =>
      [("ashbyhq.com" : String), "jobs.ashbyhq.com"].any
        (fun p => containsLit p.data (lowerChars url.data))
    extractCompanySlug := fun url =>
      findSlugExcl
        [("jobs.ashbyhq.com/" : String).data,
         ("ashbyhq.com/" : String).data] [] url }

def workableAPI : ATSApiClient :=
  { name := "workable"
    matchesUrl := fun url =>
      containsLit ("workable.com" : String).data (lowerChars url.data)
    extractCompanySlug := fun url =>
      findSlugExcl
        [("apply.workable.com/" : String).data,
         ("workable.com/" : String).data]
        ["api", "v1", "widget"] url }

/-- The ordered provider registry `ATS_API_CLIENTS`. -/
def ATS_API_CLIENTS : List ATSApiClient :=
  [greenhouseAPI, leverAPI, ashbyAPI, workableAPI]

/-- `get_ats_api_client`: linear scan, first matching predicate wins. -/
def getAtsApiClient (url : String) : Option ATSApiClient :=
  ATS_API_CLIENTS.find? (fun c => c.matchesUrl url)

/-- `detect_ats_type`. -/
def detectAtsType (url : String) : Option String :=
  (getAtsApiClient url).map ATSApiClient.name

/-- Environment of a provider API request: the decoded job list on success,
or an `httpx.HTTPError` (raised status included). -/
inductive FetchOutcome
  | ok (jobs : List Job)
  | httpError
  deriving DecidableEq, Repr

/-- `ATSApiClient.get_jobs(career_url)`: slug-extraction failure yields
`([], 0.0)` without a request; a provider `fetch_jobs` call returns the
mapped job list, or `[]` on `httpx.HTTPError`, with the elapsed duration
(`dur`, an oracle for the wall-clock measurement). -/
def getJobs (fetch : String → String → FetchOutcome)
    (dur : String → String → Int) (c : ATSApiClient) (url : String) :
    List Job × Int :=
  match c.extractCompanySlug url with
  | none => ([], 0)
  | some slug =>
    let jobs := match fetch c.name slug with
      | .ok js => js
      | .httpError => []
    (jobs, dur c.name slug)

/-- `fetch_jobs_via_api(career_url)`. -/
def fetchJobsViaApi (fetch : String → String → FetchOutcome)
    (dur : String → String → Int) (url : String) :
    Option (List Job) × Option String × Int :=
  match getAtsApiClient url with
  | none => (none, none, 0)
  | some c =>
    let jd := getJobs fetch dur c url
    (some jd.1, some c.name, jd.2)

/-- "The provider request fails": the matched provider's slug extraction
fails, or the provider endpoint raises an HTTP error. -/
def requestFails (fetch : String → String → FetchOutcome) (url : String) :
    Bool :=
  match getAtsApiClient url with
  | none => false
  | some c =>
    match c.extractCompanySlug url with
    | none => true
    | some slug =>
      match fetch c.name slug with
      | .ok _ => false
      | .httpError => true

/-- C3 as stated is false: for `https://boards.greenhouse.io` the greenhouse
predicate matches but slug extraction fails, and `fetch_jobs_via_api`
returns `(some [], some "greenhouse", 0)` rather than `(none, none, 0)`,
refuting the claimed equivalence at this input. -/
theorem C3_counterexample :
    ¬ ((fetchJobsViaApi (fun _ _ => .httpError) (fun _ _ => 0)
          "https://boards.greenhouse.io" = (none, none, 0)) ↔
       ((getAtsApiClient "https://boards.greenhouse.io").isNone = true ∨
        requestFails (fun _ _ => .httpError)
          "https://boards.greenhouse.io" = true)) := by
  decide

/-- C3 amended: `fetch_jobs_via_api` returns `(none, none, 0)` exactly when
no registered provider's URL predicate matches; when a provider matches it
returns `(some jobs, some tag, duration)` even if the request fails, with
`jobs = []` and `duration = 0` on slug-extraction failure and `jobs = []`
on an HTTP error from the provider endpoint. -/
theorem C3_fetch_result (url : String)
    (fetch : String → String → FetchOutcome) (dur : String → String → Int) :
    (fetchJobsViaApi fetch dur url = (none, none, 0) ↔
      (getAtsApiClient url).isNone = true) ∧
    (∀ c, getAtsApiClient url = some c →
      fetchJobsViaApi fetch dur url =
        (some (getJobs fetch dur c url).1, some c.name,
         (getJobs fetch dur c url).2)) ∧
    (∀ c, getAtsApiClient url = some c → c.extractCompanySlug url = none →
      getJobs fetch dur c url = ([], 0)) ∧
    (∀ c slug, getAtsApiClient url = some c →
      c.extractCompanySlug url = some slug → fetch c.name slug = .httpError →
      (getJobs fetch dur c url).1 = []) := by
  refine ⟨?_, ?_, ?_, ?_⟩
  · constructor
    · intro h
      unfold fetchJobsViaApi at h
      match hg : getAtsApiClient url with
      | none => simp [hg]
      | some c => rw [hg] at h; simp at h
    · intro h
      unfold fetchJobsViaApi
      match hg : getAtsApiClient url with
      | none => simp
      | some c => rw [hg] at h; simp at h
  · intro c hc
    unfold fetchJobsViaApi
    rw [hc]
  · intro c _ hslug
    unfold getJobs
    rw [hslug]
  · intro c slug _ hslug hfetch
    unfold getJobs
    rw [hslug]
    simp [hfetch]

/-- Witness for C3 at a matched greenhouse URL with a successful request. -/
theorem C3_fetch_result_witness :
    fetchJobsViaApi (fun _ _ => .ok [{ title := "t" }]) (fun _ _ => 3)
      "https://boards.greenhouse.io/acme" =
      (some [{ title := "t" }], some "greenhouse", 3) := by
  have h := (C3_fetch_result "https://boards.greenhouse.io/acme"
    (fun _ _ => .ok [{ title := "t" }]) (fun _ _ => 3)).2.1 greenhouseAPI rfl
  exact h.trans rfl

/-! ## Database operations (src/crawler/database/operations.py) -/

/-- PostgreSQL equality on the `location` column of the unique constraint:
two rows conflict only when both locations are non-NULL and equal (NULLs
are distinct in a unique constraint). -/
def locationConflict : Option String → Option String → Bool
  | some a, some b => a = b
  | _, _ => false

/-- Does an existing row conflict with `(company_id, title, location)`
under constraint `unique_job_per_company`? -/
def jobConflictKey (cid : Nat) (title : String) (loc : Option String)
    (r : JobRow) : Bool :=
  r.company_id = cid && r.title = title && locationConflict r.location loc

/-- Fresh `SERIAL` primary-key value for the `jobs` table. -/
def nextJobId (jobs : List JobRow) : Nat :=
  (jobs.map JobRow.job_id).foldr max 0 + 1

/-- `insert_job`: `INSERT ... ON CONFLICT (company_id, title, location)
DO UPDATE SET description, requirements, application_url, posted_date,
is_active = TRUE, updated_at = CURRENT_TIMESTAMP RETURNING job_id`.
`scraped_at` and `created_at` are only set by the insert default. -/
def insertJob (jobs : List JobRow) (now : Time) (cid : Nat) (title : String)
    (description requirements location application_url : Option String)
    (posted_date : Option Time) : Nat × List JobRow :=
  match jobs.find? (jobConflictKey cid title location) with
  | some r =>
    (r.job_id, jobs.map fun x =>
      if x.job_id = r.job_id then
        { x with
          description := description
          requirements := requirements
          application_url := application_url
          posted_date := posted_date
          is_active := true
          updated_at := now }
      else x)
  | none =>
    let jid := nextJobId jobs
    (jid, jobs ++ [{
      job_id := jid
      company_id := cid
      title := title
      description := description
      requirements := requirements
      location := location
      application_url := application_url
      posted_date := posted_date
      scraped_at := now
      is_active := true
      created_at := now
      updated_at := now }])

/-- `mark_jobs_inactive`: `UPDATE jobs SET is_active = FALSE, updated_at =
CURRENT_TIMESTAMP WHERE company_id = $1 AND job_id != ALL($2)`. -/
def markJobsInactive (jobs : List JobRow) (now : Time) (cid : Nat)
    (activeJobIds : List Nat) : List JobRow :=
  jobs.map fun r =>
    if r.company_id = cid && !(activeJobIds.contains r.job_id) then
      { r with is_active := false, updated_at := now }
    else r

/-- `insert_company`: upsert on the unique `career_page_url`, refreshing
`name` and `ats_type`, returning the company id. -/
def insertCompany (companies : List Company) (name url : String)
    (ats : Option String) : Nat × List Company :=
  match companies.find? (fun c => c.career_page_url = url) with
  | some c =>
    (c.company_id, companies.map fun x =>
      if x.career_page_url = url then { x with name := name, ats_type := ats }
      else x)
  | none =>
    let cidNew := (companies.map Company.company_id).foldr max 0 + 1
    (cidNew, companies ++ [{
      company_id := cidNew
      name := name
      career_page_url := url
      ats_type := ats
      last_crawled := none }])

/-- `update_company_crawl_time`. -/
def updateCompanyCrawlTime (companies : List Company) (now : Time)
    (cid : Nat) : List Company :=
  companies.map fun c =>
    if c.company_id = cid then { c with last_crawled := some now } else c

/-! ## Cache store (C5) -/

/-- The upsert shared by `CareerCrawler.update_job_cache` and the task-queue
`update_job_cache`: `INSERT INTO job_cache ... VALUES (..., NOW(),
NOW() + INTERVAL '24 hours', ...) ON CONFLICT (company_id) DO UPDATE SET
...`. The 24-hour interval is written into the SQL text. -/
def updateJobCacheSQL (cache : List CacheRow) (now : Time) (cid : Nat)
    (jobs : List Job) (ats : Option String) (durMs : Int) : List CacheRow :=
  if cache.any (fun r => r.company_id = cid) then
    cache.map fun r =>
      if r.company_id = cid then
        { r with
          jobs := jobs
          job_count := jobs.length
          crawled_at := now
          expires_at := now + 86400
          ats_type := ats
          crawl_duration_ms := durMs
          updated_at := now }
      else r
  else
    cache ++ [{
      company_id := cid
      jobs := jobs
      job_count := jobs.length
      crawled_at := now
      expires_at := now + 86400
      ats_type := ats
      crawl_duration_ms := durMs
      created_at := now
      updated_at := now }]

/-- Configuration carried by `CareerCrawler` (`use_cache`,
`cache_ttl_hours`; the latter stands for the configured TTL,
`CRAWL_INTERVAL_HOURS`). -/
structure CrawlerCfg where
  useCache : Bool := true
  cacheTtlHours : Nat := 24
  deriving DecidableEq, Repr

/-- `CareerCrawler.update_job_cache`: no-op when `use_cache` is off,
otherwise the SQL upsert. -/
def crawlerUpdateJobCache (cfg : CrawlerCfg) (cache : List CacheRow)
    (now : Time) (cid : Nat) (jobs : List Job) (ats : Option String)
    (durMs : Int) : List CacheRow :=
  if cfg.useCache then updateJobCacheSQL cache now cid jobs ats durMs
  else cache

/-- C5 as stated is false: with a configured TTL of 12 hours the upsert
still writes `expires_at = now + 24 h`, because the 24-hour interval is
fixed in the SQL text and the configured TTL is not consulted. -/
theorem C5_counterexample :
    ¬ (∀ r ∈ crawlerUpdateJobCache { useCache := true, cacheTtlHours := 12 }
          [] 1000 7 [] (some "greenhouse") 5,
        r.expires_at = 1000 + (12 : Int) * 3600) := by
  decide

/-- Mapping a function that preserves a predicate and fixes the elements
satisfying it does not change the filtered list. -/
theorem filter_map_eq_filter {α : Type} (p : α → Bool) (g : α → α)
    (hpg : ∀ x, p (g x) = p x) (hid : ∀ x, p x = true → g x = x)
    (l : List α) : (l.map g).filter p = l.filter p := by
  induction l with
  | nil => rfl
  | cons x rest ih =>
    rw [List.map_cons, List.filter_cons, List.filter_cons, hpg x]
    by_cases hx : p x = true
    · rw [if_pos hx, if_pos hx, hid x hx, ih]
    · rw [if_neg hx, if_neg hx, ih]

/-- C5 amended: `update_cache` is an idempotent upsert keyed on
`company_id` setting `crawled_at = now` and `expires_at = now + 24 h`
(the interval is fixed at 24 hours in the SQL regardless of the
configured TTL); rows of other companies are untouched, an entry for the
company exists afterwards, and every stored entry satisfies
`expires_at > crawled_at`. -/
theorem C5_update_cache (cfg : CrawlerCfg) (hcfg : cfg.useCache = true)
    (cache : List CacheRow) (now : Time) (cid : Nat) (jobs : List Job)
    (ats : Option String) (durMs : Int) :
    ((crawlerUpdateJobCache cfg cache now cid jobs ats durMs).filter
        (fun r => ¬ r.company_id = cid) =
      cache.filter (fun r => ¬ r.company_id = cid)) ∧
    ((crawlerUpdateJobCache cfg cache now cid jobs ats durMs).any
        (fun r => r.company_id = cid) = true) ∧
    (∀ r ∈ crawlerUpdateJobCache cfg cache now cid jobs ats durMs,
      r.company_id = cid →
        r.crawled_at = now ∧ r.expires_at = now + 86400 ∧ r.jobs = jobs ∧
        r.job_count = jobs.length ∧ r.ats_type = ats ∧
        r.crawl_duration_ms = durMs ∧ r.crawled_at < r.expires_at) ∧
    (crawlerUpdateJobCache cfg
        (crawlerUpdateJobCache cfg cache now cid jobs ats durMs)
        now cid jobs ats durMs =
      crawlerUpdateJobCache cfg cache now cid jobs ats durMs) := by
  unfold crawlerUpdateJobCache
  rw [hcfg]
  simp only [if_pos]
  unfold updateJobCacheSQL
  by_cases hany : cache.any (fun r => r.company_id = cid) = true
  · rw [if_pos hany]
    have hid : ∀ r : CacheRow, r.company_id = cid →
        ({ r with
          jobs := jobs
          job_count := jobs.length
          crawled_at := now
          expires_at := now + 86400
          ats_type := ats
          crawl_duration_ms := durMs
          updated_at := now } : CacheRow).company_id = cid := by
      intro r hr
      simpa using hr
    refine ⟨?_, ?_, ?_, ?_⟩
    · refine filter_map_eq_filter _ _ ?_ ?_ cache
      · intro x
        by_cases hx : x.company_id = cid <;> simp [hx]
      · intro x hx
        simp only [decide_eq_true_eq] at hx
        rw [if_neg hx]
    · rw [List.any_eq_true] at hany ⊢
      obtain ⟨r, hr, hrc⟩ := hany
      simp only [decide_eq_true_eq] at hrc
      refine ⟨_, List.mem_map_of_mem _ hr, ?_⟩
      simp [hrc]
    · intro r hr hrc
      rw [List.mem_map] at hr
      obtain ⟨x, _, hx⟩ := hr
      by_cases hxc : x.company_id = cid
      · rw [if_pos hxc] at hx
        rw [← hx]
        refine ⟨rfl, rfl, rfl, rfl, rfl, rfl, ?_⟩
        show now < now + 86400
        norm_num
      · rw [if_neg hxc] at hx
        exact absurd (hx ▸ hrc) hxc
    · have hany2 : (cache.map fun r =>
          if r.company_id = cid then
            { r with
              jobs := jobs
              job_count := jobs.length
              crawled_at := now
              expires_at := now + 86400
              ats_type := ats
              crawl_duration_ms := durMs
              updated_at := now }
          else r).any (fun r => r.company_id = cid) = true := by
        rw [List.any_eq_true] at hany ⊢
        obtain ⟨r, hr, hrc⟩ := hany
        simp only [decide_eq_true_eq] at hrc
        refine ⟨_, List.mem_map_of_mem _ hr, ?_⟩
        simp [hrc]
      rw [if_pos hany2, List.map_map]
      refine List.map_congr_left ?_
      intro x _
      by_cases hxc : x.company_id = cid <;> simp [hxc]
  · rw [if_neg hany]
    have hnot : ∀ r ∈ cache, ¬ r.company_id = cid := by
      intro r hr hrc
      exact hany (List.any_eq_true.mpr ⟨r, hr, by simp [hrc]⟩)
    refine ⟨?_, ?_, ?_, ?_⟩
    · rw [List.filter_append]
      have h1 : List.filter (fun r => decide ¬ r.company_id = cid) cache =
          cache := List.filter_eq_self.mpr (fun r hr => by
            simpa using hnot r hr)
      simp [h1]
    · simp
    · intro r hr hrc
      rw [List.mem_append] at hr
      rcases hr with hr | hr
      · exact absurd hrc (hnot r hr)
      · rw [List.mem_singleton] at hr
        subst hr
        refine ⟨rfl, rfl, rfl, rfl, rfl, rfl, ?_⟩
        show now < now + 86400
        norm_num
    · have hany2 : ((cache ++ [{
          company_id := cid
          jobs := jobs
          job_count := jobs.length
          crawled_at := now
          expires_at := now + 86400
          ats_type := ats
          crawl_duration_ms := durMs
          created_at := now
          updated_at := now }] : List CacheRow)).any
            (fun r => r.company_id = cid) = true := by
        simp
      rw [if_pos hany2, List.map_append]
      have h1 : cache.map (fun r =>
          if r.company_id = cid then
            { r with
              jobs := jobs
              job_count := jobs.length
              crawled_at := now
              expires_at := now + 86400
              ats_type := ats
              crawl_duration_ms := durMs
              updated_at := now }
          else r) = cache := by
        rw [show cache.map _ = cache.map id from
          List.map_congr_left (fun r hr => by simp [hnot r hr])]
        exact List.map_id cache
      rw [h1]
      simp

/-- Witness for C5: a concrete double update is idempotent. -/
theorem C5_update_cache_witness :
    crawlerUpdateJobCache {} (crawlerUpdateJobCache {} [] 0 1 [] none 7)
        0 1 [] none 7 =
      crawlerUpdateJobCache {} [] 0 1 [] none 7 :=
  (C5_update_cache {} rfl [] 0 1 [] none 7).2.2.2

/-! ## The HTML crawl pass over the jobs table (src/crawler/main.py,
`CareerCrawler.crawl_company`) -/

/-- The job-insertion loop of `crawl_company`: upsert each scraped record,
collecting the returned ids (`job_ids`). -/
def insertJobsLoop (jobs : List JobRow) (now : Time) (cid : Nat)
    (parsed : List Job) : List Nat × List JobRow :=
  match parsed with
  | [] => ([], jobs)
  | j :: rest =>
    let s := insertJob jobs now cid j.title j.description j.requirements
      j.location j.application_url j.posted_date
    let t := insertJobsLoop s.2 now cid rest
    (s.1 :: t.1, t.2)

/-- The effect of one `crawl_company` pass on the `jobs` table: nothing on
an empty scrape (early return), otherwise the upsert loop followed by
`mark_jobs_inactive` guarded by `if job_ids:`. -/
def workerJobsPass (jobs : List JobRow) (now : Time) (cid : Nat)
    (parsed : List Job) : List JobRow :=
  if parsed.isEmpty then jobs
  else
    let t := insertJobsLoop jobs now cid parsed
    if t.1.isEmpty then t.2 else markJobsInactive t.2 now cid t.1

/-! ### Facts about the upsert -/

theorem le_foldr_max (l : List Nat) (x : Nat) (hx : x ∈ l) :
    x ≤ l.foldr max 0 := by
  induction l with
  | nil => cases hx
  | cons a rest ih =>
    rcases List.mem_cons.mp hx with h | h
    · subst h
      exact Nat.le_max_left _ _
    · exact le_trans (ih h) (Nat.le_max_right _ _)

theorem nextJobId_fresh (jobs : List JobRow) :
    nextJobId jobs ∉ jobs.map JobRow.job_id := by
  intro h
  have := le_foldr_max (jobs.map JobRow.job_id) _ h
  unfold nextJobId at this
  omega

/-- What `insert_job` does to the id column: conflicts keep the id multiset,
a fresh insert appends the returned id. -/
theorem insertJob_ids (jobs : List JobRow) (now : Time) (cid : Nat)
    (title : String) (d rq loc au : Option String) (pd : Option Time) :
    ((insertJob jobs now cid title d rq loc au pd).2.map JobRow.job_id =
        jobs.map JobRow.job_id ∧
      (insertJob jobs now cid title d rq loc au pd).1 ∈
        jobs.map JobRow.job_id) ∨
    ((insertJob jobs now cid title d rq loc au pd).2.map JobRow.job_id =
        jobs.map JobRow.job_id ++
          [(insertJob jobs now cid title d rq loc au pd).1] ∧
      (insertJob jobs now cid title d rq loc au pd).1 =
        nextJobId jobs) := by
  unfold insertJob
  match hf : jobs.find? (jobConflictKey cid title loc) with
  | some r0 =>
    left
    constructor
    · rw [List.map_map]
      refine List.map_congr_left ?_
      intro x _
      by_cases hx : x.job_id = r0.job_id <;> simp [hx]
    · have hr0 : r0 ∈ jobs := List.mem_of_find?_eq_some hf
      exact List.mem_map_of_mem _ hr0
  | none =>
    right
    simp

theorem insertJob_ids_nodup (jobs : List JobRow) (now : Time) (cid : Nat)
    (title : String) (d rq loc au : Option String) (pd : Option Time)
    (hn : (jobs.map JobRow.job_id).Nodup) :
    ((insertJob jobs now cid title d rq loc au pd).2.map JobRow.job_id).Nodup := by
  rcases insertJob_ids jobs now cid title d rq loc au pd with ⟨h, _⟩ | ⟨h, hj⟩
  · rw [h]; exact hn
  · rw [h]
    rw [List.nodup_append]
    refine ⟨hn, List.nodup_singleton _, ?_⟩
    intro x hx hx2
    rw [List.mem_singleton] at hx2
    subst hx2
    rw [hj] at hx
    exact nextJobId_fresh jobs hx

theorem insertJob_mem_ids (jobs : List JobRow) (now : Time) (cid : Nat)
    (title : String) (d rq loc au : Option String) (pd : Option Time) :
    (insertJob jobs now cid title d rq loc au pd).1 ∈
      (insertJob jobs now cid title d rq loc au pd).2.map JobRow.job_id := by
  rcases insertJob_ids jobs now cid title d rq loc au pd with ⟨h, hj⟩ | ⟨h, _⟩
  · rw [h]; exact hj
  · rw [h]
    exact List.mem_append_right _ (List.mem_singleton_self _)

theorem insertJob_mem_ids_mono (jobs : List JobRow) (now : Time) (cid : Nat)
    (title : String) (d rq loc au : Option String) (pd : Option Time)
    (jid0 : Nat) (h : jid0 ∈ jobs.map JobRow.job_id) :
    jid0 ∈ (insertJob jobs now cid title d rq loc au pd).2.map JobRow.job_id := by
  rcases insertJob_ids jobs now cid title d rq loc au pd with ⟨he, _⟩ | ⟨he, _⟩
  · rw [he]; exact h
  · rw [he]; exact List.mem_append_left _ h

/-- The row returned by `insert_job` is active and belongs to the company:
on conflict the `DO UPDATE` re-activates (the conflict key pins the
company), otherwise the inserted row starts active. -/
theorem insertJob_returned_active (jobs : List JobRow) (now : Time)
    (cid : Nat) (title : String) (d rq loc au : Option String)
    (pd : Option Time) (hn : (jobs.map JobRow.job_id).Nodup) :
    ∀ r ∈ (insertJob jobs now cid title d rq loc au pd).2,
      r.job_id = (insertJob jobs now cid title d rq loc au pd).1 →
        r.is_active = true ∧ r.company_id = cid := by
  intro r hr hrid
  unfold insertJob at hr hrid
  revert hr hrid
  match hf : jobs.find? (jobConflictKey cid title loc) with
  | some r0 =>
    intro hr hrid
    dsimp only at hr hrid
    rw [List.mem_map] at hr
    obtain ⟨x, hx, hxr⟩ := hr
    have hr0mem : r0 ∈ jobs := List.mem_of_find?_eq_some hf
    have hr0key := List.find?_some hf
    simp only [jobConflictKey, Bool.and_eq_true, decide_eq_true_eq] at hr0key
    by_cases hxid : x.job_id = r0.job_id
    · rw [if_pos hxid] at hxr
      have hxeq : x = r0 :=
        List.inj_on_of_nodup_map hn hx hr0mem hxid
      subst hxeq
      rw [← hxr]
      exact ⟨rfl, hr0key.1.1⟩
    · rw [if_neg hxid] at hxr
      subst hxr
      exact absurd hrid hxid
  | none =>
    intro hr hrid
    dsimp only at hr hrid
    rw [List.mem_append] at hr
    rcases hr with hr | hr
    · exfalso
      exact nextJobId_fresh jobs (hrid ▸ List.mem_map_of_mem JobRow.job_id hr)
    · rw [List.mem_singleton] at hr
      subst hr
      exact ⟨rfl, rfl⟩

/-- `insert_job` preserves "every row with this id is active and owned by
the company", for ids already present. -/
theorem insertJob_preserves_active (jobs : List JobRow) (now : Time)
    (cid : Nat) (title : String) (d rq loc au : Option String)
    (pd : Option Time) (jid0 : Nat) (hmem : jid0 ∈ jobs.map JobRow.job_id)
    (h : ∀ r ∈ jobs, r.job_id = jid0 → r.is_active = true ∧ r.company_id = cid) :
    ∀ r ∈ (insertJob jobs now cid title d rq loc au pd).2,
      r.job_id = jid0 → r.is_active = true ∧ r.company_id = cid := by
  intro r hr hrid
  unfold insertJob at hr
  revert hr
  match hf : jobs.find? (jobConflictKey cid title loc) with
  | some r0 =>
    intro hr
    dsimp only at hr
    rw [List.mem_map] at hr
    obtain ⟨x, hx, hxr⟩ := hr
    by_cases hxid : x.job_id = r0.job_id
    · rw [if_pos hxid] at hxr
      rw [← hxr] at hrid ⊢
      have := h x hx hrid
      exact ⟨rfl, this.2⟩
    · rw [if_neg hxid] at hxr
      subst hxr
      exact h x hx hrid
  | none =>
    intro hr
    dsimp only at hr
    rw [List.mem_append] at hr
    rcases hr with hr | hr
    · exact h r hr hrid
    · rw [List.mem_singleton] at hr
      subst hr
      exfalso
      rw [← hrid] at hmem
      exact nextJobId_fresh jobs hmem

/-- Combined invariants of the job-insertion loop: id-column Nodup is
preserved, one id is returned per scraped record, present ids persist,
"active and owned" rows persist, and every row whose id was returned by
the loop is active and owned by the company. -/
theorem insertJobsLoop_spec (now : Time) (cid : Nat) :
    ∀ (parsed : List Job) (jobs : List JobRow),
      (jobs.map JobRow.job_id).Nodup →
      (((insertJobsLoop jobs now cid parsed).2.map JobRow.job_id).Nodup) ∧
      ((insertJobsLoop jobs now cid parsed).1.length = parsed.length) ∧
      (∀ jid0 ∈ jobs.map JobRow.job_id,
        jid0 ∈ (insertJobsLoop jobs now cid parsed).2.map JobRow.job_id) ∧
      (∀ jid0, jid0 ∈ jobs.map JobRow.job_id →
        (∀ r ∈ jobs, r.job_id = jid0 →
          r.is_active = true ∧ r.company_id = cid) →
        ∀ r ∈ (insertJobsLoop jobs now cid parsed).2, r.job_id = jid0 →
          r.is_active = true ∧ r.company_id = cid) ∧
      (∀ r ∈ (insertJobsLoop jobs now cid parsed).2,
        r.job_id ∈ (insertJobsLoop jobs now cid parsed).1 →
          r.is_active = true ∧ r.company_id = cid) := by
  intro parsed
  induction parsed with
  | nil =>
    intro jobs hn
    refine ⟨hn, rfl, fun jid0 h => h, fun jid0 _ h => h, ?_⟩
    intro r _ hr
    cases hr
  | cons j rest ih =>
    intro jobs hn
    have hn2 := insertJob_ids_nodup jobs now cid j.title j.description
      j.requirements j.location j.application_url j.posted_date hn
    obtain ⟨ih1, ih2, ih3, ih4, ih5⟩ :=
      ih (insertJob jobs now cid j.title j.description j.requirements
        j.location j.application_url j.posted_date).2 hn2
    refine ⟨ih1, ?_, ?_, ?_, ?_⟩
    · show _ + 1 = rest.length + 1
      rw [ih2]
    · intro jid0 h
      exact ih3 jid0 (insertJob_mem_ids_mono jobs now cid j.title
        j.description j.requirements j.location j.application_url
        j.posted_date jid0 h)
    · intro jid0 hmem hprop
      exact ih4 jid0
        (insertJob_mem_ids_mono jobs now cid j.title j.description
          j.requirements j.location j.application_url j.posted_date jid0 hmem)
        (insertJob_preserves_active jobs now cid j.title j.description
          j.requirements j.location j.application_url j.posted_date jid0
          hmem hprop)
    · intro r hr hrid
      rcases List.mem_cons.mp hrid with hrid | hrid
      · exact ih4 _ (insertJob_mem_ids jobs now cid j.title j.description
            j.requirements j.location j.application_url j.posted_date)
          (insertJob_returned_active jobs now cid j.title j.description
            j.requirements j.location j.application_url j.posted_date hn)
          r hr hrid
      · exact ih5 r hr hrid

/-- After `mark_jobs_inactive`, a row of the company is active exactly when
its id is in the fresh set, provided every fresh-id row was left active
and owned by the company. -/
theorem natContains_iff (ids : List Nat) (a : Nat) :
    ids.contains a = true ↔ a ∈ ids :=
  List.elem_iff

theorem markJobsInactive_active_iff (jobs2 : List JobRow) (now : Time)
    (cid : Nat) (ids : List Nat)
    (hact : ∀ r ∈ jobs2, r.job_id ∈ ids →
      r.is_active = true ∧ r.company_id = cid) :
    ∀ r ∈ markJobsInactive jobs2 now cid ids, r.company_id = cid →
      (r.is_active = true ↔ r.job_id ∈ ids) := by
  intro r hr hc
  unfold markJobsInactive at hr
  rw [List.mem_map] at hr
  obtain ⟨x, hx, hxr⟩ := hr
  by_cases hcont : x.job_id ∈ ids
  · have hcond : (x.company_id = cid && !(ids.contains x.job_id)) = false := by
      rw [(natContains_iff ids x.job_id).mpr hcont]
      simp
    rw [hcond] at hxr
    simp only [Bool.false_eq_true, if_false] at hxr
    subst hxr
    exact ⟨fun _ => hcont, fun _ => (hact x hx hcont).1⟩
  · have hcontb : ids.contains x.job_id = false := by
      rcases Bool.eq_false_or_eq_true (ids.contains x.job_id) with h | h
      · exact absurd ((natContains_iff ids x.job_id).mp h) hcont
      · exact h
    by_cases hxc : x.company_id = cid
    · have hcond : (x.company_id = cid && !(ids.contains x.job_id)) = true := by
        rw [hcontb]
        simp [hxc]
      rw [hcond] at hxr
      simp only [if_true] at hxr
      rw [← hxr]
      constructor
      · intro h
        cases h
      · intro h
        exact absurd h hcont
    · have hcond : (x.company_id = cid && !(ids.contains x.job_id)) = false := by
        simp [hxc]
      rw [hcond] at hxr
      simp only [Bool.false_eq_true, if_false] at hxr
      subst hxr
      exact absurd hc hxc

/-! ## `CareerCrawler.crawl_company` and the smart crawl -/

/-- The per-company crawl statistics of `crawl_company`. -/
structure CrawlStats where
  company_name : String
  success : Bool
  jobs_found : Nat
  jobs_inserted : Nat
  errors : List String
  deriving DecidableEq, Repr

/-- `CareerCrawler.crawl_company(name, url)`, parameterised by the
environment: `htmlOk` (does the rate-gated page fetch return a body),
`atsDetected` (the detector's verdict) and `parsed` (the records the HTML
parser yields). Inserts the company, fetches, detects, re-inserts with the
detected type, scrapes, upserts jobs, marks stale jobs inactive (guarded
by `if job_ids:`), and updates `last_crawled`. -/
def crawlCompany (st : DBState) (now : Time) (name url : String)
    (htmlOk : Bool) (atsDetected : Option String) (parsed : List Job) :
    CrawlStats × DBState :=
  let ins := insertCompany st.companies name url none
  let cid := ins.1
  let st1 : DBState := { st with companies := ins.2 }
  if htmlOk = false then
    ({ company_name := name
       success := false
       jobs_found := 0
       jobs_inserted := 0
       errors := ["Failed to fetch career page: " ++ url] }, st1)
  else
    let st2 : DBState :=
      { st1 with companies := (insertCompany st1.companies name url atsDetected).2 }
    if parsed.isEmpty then
      ({ company_name := name
         success := true
         jobs_found := 0
         jobs_inserted := 0
         errors := [] }, st2)
    else
      let t := insertJobsLoop st2.jobs now cid parsed
      let st3 : DBState :=
        { st2 with
          jobs := workerJobsPass st2.jobs now cid parsed
          companies := updateCompanyCrawlTime st2.companies now cid }
      ({ company_name := name
         success := true
         jobs_found := parsed.length
         jobs_inserted := t.1.length
         errors := [] }, st3)

/-- A company with one previously-active job (id 5). -/
def staleJobRow : JobRow :=
  { job_id := 5
    company_id := 1
    title := "old"
    description := none
    requirements := none
    location := some "x"
    application_url := none
    posted_date := none
    scraped_at := 0
    is_active := true
    created_at := 0
    updated_at := 0 }

def c7State : DBState :=
  { companies := [{
      company_id := 1
      name := "a"
      career_page_url := "u"
      ats_type := none
      last_crawled := none }]
    jobs := [staleJobRow]
    job_cache := []
    subs := [] }

/-- C7 as stated is false: the pass below succeeds (`success = true`) with
an empty scrape, `mark_jobs_inactive` is skipped (`if job_ids:` guard, and
the early return on zero jobs), and the company's previously-active job
stays active although it was not refreshed in the pass. -/
theorem C7_counterexample :
    (crawlCompany c7State 10 "a" "u" true none []).1.success = true ∧
    ¬ (∀ r ∈ (crawlCompany c7State 10 "a" "u" true none []).2.jobs,
        r.company_id = 1 →
          (r.is_active = true ↔ r.job_id ∈ ([] : List Nat))) := by
  constructor
  · rfl
  · decide

/-- C7 amended: after every HTML crawl pass that refreshes at least one job
(`parsed ≠ []`, so the `if job_ids:` guard passes and
`mark_jobs_inactive` runs exactly once), a row of the company is active
exactly when its id is in the fresh-id set returned by the upsert loop;
a successful pass that refreshes no job leaves the previous active set
unchanged. -/
theorem C7_active_iff_fresh (jobs : List JobRow) (now : Time) (cid : Nat)
    (parsed : List Job) (hn : (jobs.map JobRow.job_id).Nodup)
    (hne : parsed ≠ []) :
    ∀ r ∈ workerJobsPass jobs now cid parsed, r.company_id = cid →
      (r.is_active = true ↔
        r.job_id ∈ (insertJobsLoop jobs now cid parsed).1) := by
  have hspec := insertJobsLoop_spec now cid parsed jobs hn
  have hlen : (insertJobsLoop jobs now cid parsed).1.length = parsed.length :=
    hspec.2.1
  have hidsne : (insertJobsLoop jobs now cid parsed).1.isEmpty = false := by
    rcases Bool.eq_false_or_eq_true (insertJobsLoop jobs now cid parsed).1.isEmpty
      with h | h
    · exfalso
      rw [List.isEmpty_iff_length_eq_zero, hlen] at h
      exact hne (List.length_eq_zero.mp h)
    · exact h
  have hpe : parsed.isEmpty = false := by
    rcases Bool.eq_false_or_eq_true parsed.isEmpty with h | h
    · exact absurd (List.isEmpty_iff.mp h) hne
    · exact h
  have hpass : workerJobsPass jobs now cid parsed =
      markJobsInactive (insertJobsLoop jobs now cid parsed).2 now cid
        (insertJobsLoop jobs now cid parsed).1 := by
    unfold workerJobsPass
    simp only [hpe, hidsne, Bool.false_eq_true, if_false]
  rw [hpass]
  exact markJobsInactive_active_iff _ now cid _ hspec.2.2.2.2

/-- Witness for C7: a fresh scrape of one job deactivates the stale job
(id 5) of the company. -/
theorem C7_active_iff_fresh_witness :
    (({ job_id := 5, company_id := 1, title := "old", description := none,
        requirements := none, location := some "x", application_url := none,
        posted_date := none, scraped_at := 0, is_active := false,
        created_at := 0, updated_at := 10 } : JobRow).is_active = true ↔
      (5 : Nat) ∈ (insertJobsLoop
        [{ job_id := 5, company_id := 1, title := "old", description := none,
           requirements := none, location := some "x",
           application_url := none, posted_date := none, scraped_at := 0,
           is_active := true, created_at := 0, updated_at := 0 }] 10 1
        [{ title := "new", location := some "y" }]).1) :=
  C7_active_iff_fresh
    [{ job_id := 5, company_id := 1, title := "old", description := none,
       requirements := none, location := some "x", application_url := none,
       posted_date := none, scraped_at := 0, is_active := true,
       created_at := 0, updated_at := 0 }] 10 1
    [{ title := "new", location := some "y" }] (by decide) (by decide)
    { job_id := 5, company_id := 1, title := "old", description := none,
      requirements := none, location := some "x", application_url := none,
      posted_date := none, scraped_at := 0, is_active := false,
      created_at := 0, updated_at := 10 } (by decide) (by decide)

/-! ## Idempotence of the worker pass on the jobs table (C6) -/

/-- Two rows clash on the unique key `(company_id, title, location)`
(PostgreSQL semantics: NULL locations never clash). -/
def KeyClash (r s : JobRow) : Prop :=
  r.company_id = s.company_id ∧ r.title = s.title ∧
    locationConflict r.location s.location = true

/-- A valid `jobs` table state: primary key and unique constraint hold. -/
def JobsWF (jobs : List JobRow) : Prop :=
  (jobs.map JobRow.job_id).Nodup ∧
    List.Pairwise (fun r s => ¬ KeyClash r s) jobs

/-- The non-key payload columns of a row equal a scraped record's fields. -/
def payloadEq (j : Job) (r : JobRow) : Prop :=
  r.description = j.description ∧ r.requirements = j.requirements ∧
    r.application_url = j.application_url ∧ r.posted_date = j.posted_date

/-- The table already holds, for every scraped record, an active row of the
company with that record's key and payload (the situation after a first
successful pass over an unchanged source). -/
def Saturated (cid : Nat) (jobs : List JobRow) (parsed : List Job) : Prop :=
  ∀ j ∈ parsed, ∃ r ∈ jobs,
    r.company_id = cid ∧ r.title = j.title ∧ r.location = j.location ∧
    payloadEq j r ∧ r.is_active = true

/-- Refresh `updated_at` on every row of one company. -/
def touchCompany (t : Time) (cid : Nat) (jobs : List JobRow) : List JobRow :=
  jobs.map fun r =>
    if r.company_id = cid then { r with updated_at := t } else r

theorem locationConflict_iff_eq (rl : Option String) (b : String) :
    locationConflict rl (some b) = true ↔ rl = some b := by
  match rl with
  | none => simp [locationConflict]
  | some a => simp [locationConflict]

theorem locationConflict_none (rl : Option String) :
    locationConflict rl none = false := by
  match rl with
  | none => rfl
  | some a => rfl

theorem locationConflict_symm (p q : Option String) :
    locationConflict p q = locationConflict q p := by
  match p, q with
  | some a, some b =>
    simp only [locationConflict, decide_eq_decide]
    exact eq_comm
  | some a, none => rfl
  | none, some b => rfl
  | none, none => rfl

/-- In a well-formed table, `find?` on the conflict key returns the (unique)
matching row. -/
theorem find?_key_unique (jobs : List JobRow) (cid : Nat) (title : String)
    (loc : Option String) (hwf : JobsWF jobs) (r : JobRow) (hr : r ∈ jobs)
    (hkey : jobConflictKey cid title loc r = true) :
    jobs.find? (jobConflictKey cid title loc) = some r := by
  have hsome : (jobs.find? (jobConflictKey cid title loc)).isSome := by
    rw [List.find?_isSome]
    exact ⟨r, hr, hkey⟩
  obtain ⟨x, hx⟩ := Option.isSome_iff_exists.mp hsome
  have hxmem : x ∈ jobs := List.mem_of_find?_eq_some hx
  have hxkey : jobConflictKey cid title loc x = true := List.find?_some hx
  rw [hx]
  congr 1
  by_contra hne
  simp only [jobConflictKey, Bool.and_eq_true, decide_eq_true_eq]
    at hxkey hkey
  obtain ⟨⟨hxc, hxt⟩, hxl⟩ := hxkey
  obtain ⟨⟨hrc, hrt⟩, hrl⟩ := hkey
  obtain ⟨b, hb⟩ : ∃ b, loc = some b := by
    match hl : loc with
    | some b => exact ⟨b, rfl⟩
    | none => rw [locationConflict_none] at hxl; cases hxl
  subst hb
  rw [locationConflict_iff_eq] at hxl hrl
  have hclash : KeyClash x r := by
    refine ⟨by rw [hxc, hrc], by rw [hxt, hrt], ?_⟩
    rw [hxl, hrl]
    simp [locationConflict]
  have hsymm : Symmetric (fun r s : JobRow => ¬ KeyClash r s) := by
    intro a c hac hca
    refine hac ⟨hca.1.symm, hca.2.1.symm, ?_⟩
    rw [locationConflict_symm]
    exact hca.2.2
  exact (List.Pairwise.forall hsymm hwf.2) hxmem hr hne hclash

/-- Re-upserting a record whose row is already present, identical and
active only refreshes that row's `updated_at` (`scraped_at`,
`created_at`, ids, key and payload are untouched). -/
theorem insertJob_sat_eq (jobs : List JobRow) (t2 : Time) (cid : Nat)
    (j : Job) (hwf : JobsWF jobs) (r : JobRow) (hr : r ∈ jobs)
    (hc : r.company_id = cid) (ht : r.title = j.title)
    (hl : r.location = j.location) (hpay : payloadEq j r)
    (hact : r.is_active = true) (hlb : ∃ b, j.location = some b) :
    insertJob jobs t2 cid j.title j.description j.requirements j.location
      j.application_url j.posted_date =
    (r.job_id, jobs.map fun y =>
      if y.job_id = r.job_id then { y with updated_at := t2 } else y) := by
  obtain ⟨b, hb⟩ := hlb
  have hkey : jobConflictKey cid j.title j.location r = true := by
    simp only [jobConflictKey, Bool.and_eq_true, decide_eq_true_eq]
    refine ⟨⟨hc, ht⟩, ?_⟩
    rw [hb, locationConflict_iff_eq, hl, hb]
  have hfind := find?_key_unique jobs cid j.title j.location hwf r hr hkey
  unfold insertJob
  rw [hfind]
  dsimp only
  congr 1
  refine List.map_congr_left ?_
  intro y hy
  by_cases hid : y.job_id = r.job_id
  · rw [if_pos hid, if_pos hid]
    have hyr : y = r := List.inj_on_of_nodup_map hwf.1 hy hr hid
    subst hyr
    obtain ⟨h1, h2, h3, h4⟩ := hpay
    rw [← h1, ← h2, ← h3, ← h4, ← hact]
  · rw [if_neg hid, if_neg hid]

/-- A row map that fixes the id and key columns preserves table
well-formedness. -/
theorem jobsWF_map (jobs : List JobRow) (g : JobRow → JobRow)
    (hid : ∀ r, (g r).job_id = r.job_id)
    (hc : ∀ r, (g r).company_id = r.company_id)
    (ht : ∀ r, (g r).title = r.title)
    (hl : ∀ r, (g r).location = r.location)
    (hwf : JobsWF jobs) : JobsWF (jobs.map g) := by
  constructor
  · rw [List.map_map]
    rw [show jobs.map (JobRow.job_id ∘ g) = jobs.map JobRow.job_id from
      List.map_congr_left (fun r _ => hid r)]
    exact hwf.1
  · rw [List.pairwise_map]
    refine hwf.2.imp ?_
    intro a b hab hclash
    refine hab ⟨?_, ?_, ?_⟩
    · rw [← hc a, ← hc b]
      exact hclash.1
    · rw [← ht a, ← ht b]
      exact hclash.2.1
    · rw [← hl a, ← hl b]
      exact hclash.2.2

theorem insertJob_pairwise (jobs : List JobRow) (t : Time) (cid : Nat)
    (title : String) (d rq loc au : Option String) (pd : Option Time)
    (hp : List.Pairwise (fun r s => ¬ KeyClash r s) jobs) :
    List.Pairwise (fun r s => ¬ KeyClash r s)
      (insertJob jobs t cid title d rq loc au pd).2 := by
  unfold insertJob
  match hf : jobs.find? (jobConflictKey cid title loc) with
  | some r0 =>
    dsimp only
    rw [List.pairwise_map]
    refine hp.imp ?_
    intro a b hab hclash
    apply hab
    have fid : ∀ x : JobRow,
        ((if x.job_id = r0.job_id then
            { x with
              description := d
              requirements := rq
              application_url := au
              posted_date := pd
              is_active := true
              updated_at := t }
          else x) : JobRow).company_id = x.company_id ∧
        ((if x.job_id = r0.job_id then
            { x with
              description := d
              requirements := rq
              application_url := au
              posted_date := pd
              is_active := true
              updated_at := t }
          else x) : JobRow).title = x.title ∧
        ((if x.job_id = r0.job_id then
            { x with
              description := d
              requirements := rq
              application_url := au
              posted_date := pd
              is_active := true
              updated_at := t }
          else x) : JobRow).location = x.location := by
      intro x
      by_cases hx : x.job_id = r0.job_id <;> simp [hx]
    obtain ⟨ha1, ha2, ha3⟩ := fid a
    obtain ⟨hb1, hb2, hb3⟩ := fid b
    refine ⟨?_, ?_, ?_⟩
    · rw [← ha1, ← hb1]
      exact hclash.1
    · rw [← ha2, ← hb2]
      exact hclash.2.1
    · rw [← ha3, ← hb3]
      exact hclash.2.2
  | none =>
    dsimp only
    rw [List.pairwise_append]
    refine ⟨hp, List.pairwise_singleton _ _, ?_⟩
    intro a ha b hb
    rw [List.mem_singleton] at hb
    subst hb
    intro hclash
    have hkey : jobConflictKey cid title loc a = true := by
      simp only [jobConflictKey, Bool.and_eq_true, decide_eq_true_eq]
      exact ⟨⟨hclash.1, hclash.2.1⟩, hclash.2.2⟩
    have := List.find?_eq_none.mp hf a ha
    exact this hkey

theorem insertJob_WF (jobs : List JobRow) (t : Time) (cid : Nat)
    (title : String) (d rq loc au : Option String) (pd : Option Time)
    (hwf : JobsWF jobs) : JobsWF (insertJob jobs t cid title d rq loc au pd).2 :=
  ⟨insertJob_ids_nodup jobs t cid title d rq loc au pd hwf.1,
   insertJob_pairwise jobs t cid title d rq loc au pd hwf.2⟩

theorem markJobsInactive_WF (jobs : List JobRow) (t : Time) (cid : Nat)
    (ids : List Nat) (hwf : JobsWF jobs) :
    JobsWF (markJobsInactive jobs t cid ids) := by
  unfold markJobsInactive
  refine jobsWF_map jobs _ ?_ ?_ ?_ ?_ hwf <;> intro r <;> split <;> rfl

theorem insertJobsLoop_WF (t : Time) (cid : Nat) :
    ∀ (parsed : List Job) (jobs : List JobRow), JobsWF jobs →
      JobsWF (insertJobsLoop jobs t cid parsed).2 := by
  intro parsed
  induction parsed with
  | nil => intro jobs h; exact h
  | cons j rest ih =>
    intro jobs h
    exact ih _ (insertJob_WF jobs t cid j.title j.description j.requirements
      j.location j.application_url j.posted_date h)

/-- A row whose key conflicts with nothing being inserted survives an
upsert untouched. -/
theorem insertJob_untouched (jobs : List JobRow) (t : Time) (cid : Nat)
    (title : String) (d rq loc au : Option String) (pd : Option Time)
    (hwf : JobsWF jobs) (r : JobRow) (hr : r ∈ jobs)
    (hnk : jobConflictKey cid title loc r = false) :
    r ∈ (insertJob jobs t cid title d rq loc au pd).2 := by
  unfold insertJob
  match hf : jobs.find? (jobConflictKey cid title loc) with
  | some r0 =>
    dsimp only
    have hr0 : r0 ∈ jobs := List.mem_of_find?_eq_some hf
    have hr0key : jobConflictKey cid title loc r0 = true := List.find?_some hf
    have hne : ¬ r.job_id = r0.job_id := by
      intro h
      have : r = r0 := List.inj_on_of_nodup_map hwf.1 hr hr0 h
      subst this
      rw [hr0key] at hnk
      cases hnk
    exact List.mem_map.mpr ⟨r, hr, by rw [if_neg hne]⟩
  | none =>
    dsimp only
    exact List.mem_append_left _ hr

theorem insertJobsLoop_untouched (t : Time) (cid : Nat) :
    ∀ (parsed : List Job) (jobs : List JobRow), JobsWF jobs →
      ∀ r ∈ jobs,
        (∀ j ∈ parsed, jobConflictKey cid j.title j.location r = false) →
        r ∈ (insertJobsLoop jobs t cid parsed).2 := by
  intro parsed
  induction parsed with
  | nil => intro jobs _ r hr _; exact hr
  | cons j rest ih =>
    intro jobs hwf r hr hnk
    exact ih _ (insertJob_WF jobs t cid j.title j.description
        j.requirements j.location j.application_url j.posted_date hwf)
      r (insertJob_untouched jobs t cid j.title j.description
          j.requirements j.location j.application_url j.posted_date hwf r hr
          (hnk j (List.mem_cons_self j rest)))
      (fun j' hj' => hnk j' (List.mem_cons_of_mem j hj'))

/-- Upserts never change the id or key columns of an existing id's row. -/
theorem insertJob_preserves_fields (jobs : List JobRow) (t : Time)
    (cid : Nat) (title : String) (d rq loc au : Option String)
    (pd : Option Time) (id0 : Nat) (hid0 : id0 ∈ jobs.map JobRow.job_id) :
    ∀ r2 ∈ (insertJob jobs t cid title d rq loc au pd).2, r2.job_id = id0 →
      ∃ r ∈ jobs, r.job_id = id0 ∧ r2.company_id = r.company_id ∧
        r2.title = r.title ∧ r2.location = r.location := by
  intro r2 hr2 hid
  unfold insertJob at hr2
  revert hr2
  match hf : jobs.find? (jobConflictKey cid title loc) with
  | some r0 =>
    intro hr2
    dsimp only at hr2
    rw [List.mem_map] at hr2
    obtain ⟨x, hx, hxr⟩ := hr2
    by_cases hxid : x.job_id = r0.job_id
    · rw [if_pos hxid] at hxr
      refine ⟨x, hx, ?_, ?_, ?_, ?_⟩
      · rw [← hxr] at hid
        exact hid
      · rw [← hxr]
      · rw [← hxr]
      · rw [← hxr]
    · rw [if_neg hxid] at hxr
      subst hxr
      exact ⟨x, hx, hid, rfl, rfl, rfl⟩
  | none =>
    intro hr2
    dsimp only at hr2
    rw [List.mem_append] at hr2
    rcases hr2 with hr2 | hr2
    · exact ⟨r2, hr2, hid, rfl, rfl, rfl⟩
    · rw [List.mem_singleton] at hr2
      subst hr2
      exfalso
      rw [← hid] at hid0
      exact nextJobId_fresh jobs hid0

theorem insertJobsLoop_preserves_fields (t : Time) (cid : Nat) :
    ∀ (parsed : List Job) (jobs : List JobRow) (id0 : Nat),
      id0 ∈ jobs.map JobRow.job_id →
      ∀ r2 ∈ (insertJobsLoop jobs t cid parsed).2, r2.job_id = id0 →
        ∃ r ∈ jobs, r.job_id = id0 ∧ r2.company_id = r.company_id ∧
          r2.title = r.title ∧ r2.location = r.location := by
  intro parsed
  induction parsed with
  | nil =>
    intro jobs id0 _ r2 hr2 hid
    exact ⟨r2, hr2, hid, rfl, rfl, rfl⟩
  | cons j rest ih =>
    intro jobs id0 hid0 r2 hr2 hid
    obtain ⟨rmid, hrmid, hmidid, h1, h2, h3⟩ :=
      ih (insertJob jobs t cid j.title j.description j.requirements
          j.location j.application_url j.posted_date).2 id0
        (insertJob_mem_ids_mono jobs t cid j.title j.description
          j.requirements j.location j.application_url j.posted_date id0 hid0)
        r2 hr2 hid
    obtain ⟨r, hr, hrid, g1, g2, g3⟩ :=
      insertJob_preserves_fields jobs t cid j.title j.description
        j.requirements j.location j.application_url j.posted_date id0 hid0
        rmid hrmid hmidid
    exact ⟨r, hr, hrid, by rw [h1, g1], by rw [h2, g2], by rw [h3, g3]⟩

/-- The row carrying the id returned by an upsert has the upsert's key. -/
theorem insertJob_returned_key (jobs : List JobRow) (t : Time) (cid : Nat)
    (title : String) (d rq loc au : Option String) (pd : Option Time)
    (hn : (jobs.map JobRow.job_id).Nodup) (b : String) (hb : loc = some b) :
    ∀ r ∈ (insertJob jobs t cid title d rq loc au pd).2,
      r.job_id = (insertJob jobs t cid title d rq loc au pd).1 →
        r.company_id = cid ∧ r.title = title ∧ r.location = loc := by
  intro r hr hrid
  unfold insertJob at hr hrid
  revert hr hrid
  match hf : jobs.find? (jobConflictKey cid title loc) with
  | some r0 =>
    intro hr hrid
    dsimp only at hr hrid
    rw [List.mem_map] at hr
    obtain ⟨x, hx, hxr⟩ := hr
    have hr0 : r0 ∈ jobs := List.mem_of_find?_eq_some hf
    have hr0key : jobConflictKey cid title loc r0 = true := List.find?_some hf
    simp only [jobConflictKey, Bool.and_eq_true, decide_eq_true_eq] at hr0key
    have hr0loc : r0.location = loc := by
      rw [hb] at hr0key ⊢
      exact (locationConflict_iff_eq r0.location b).mp hr0key.2
    by_cases hxid : x.job_id = r0.job_id
    · rw [if_pos hxid] at hxr
      have hxeq : x = r0 := List.inj_on_of_nodup_map hn hx hr0 hxid
      subst hxeq
      rw [← hxr]
      exact ⟨hr0key.1.1, hr0key.1.2, hr0loc⟩
    · rw [if_neg hxid] at hxr
      subst hxr
      exact absurd hrid hxid
  | none =>
    intro hr hrid
    dsimp only at hr hrid
    rw [List.mem_append] at hr
    rcases hr with hr | hr
    · exfalso
      exact nextJobId_fresh jobs (hrid ▸ List.mem_map_of_mem JobRow.job_id hr)
    · rw [List.mem_singleton] at hr
      subst hr
      exact ⟨rfl, rfl, rfl⟩

theorem insertJob_returned_payload (jobs : List JobRow) (t : Time)
    (cid : Nat) (title : String) (d rq loc au : Option String)
    (pd : Option Time) (_ : (jobs.map JobRow.job_id).Nodup) :
    ∀ r ∈ (insertJob jobs t cid title d rq loc au pd).2,
      r.job_id = (insertJob jobs t cid title d rq loc au pd).1 →
        r.description = d ∧ r.requirements = rq ∧
        r.application_url = au ∧ r.posted_date = pd := by
  intro r hr hrid
  unfold insertJob at hr hrid
  revert hr hrid
  match hf : jobs.find? (jobConflictKey cid title loc) with
  | some r0 =>
    intro hr hrid
    dsimp only at hr hrid
    rw [List.mem_map] at hr
    obtain ⟨x, hx, hxr⟩ := hr
    by_cases hxid : x.job_id = r0.job_id
    · rw [if_pos hxid] at hxr
      rw [← hxr]
      exact ⟨rfl, rfl, rfl, rfl⟩
    · rw [if_neg hxid] at hxr
      subst hxr
      exact absurd hrid hxid
  | none =>
    intro hr hrid
    dsimp only at hr hrid
    rw [List.mem_append] at hr
    rcases hr with hr | hr
    · exfalso
      exact nextJobId_fresh jobs (hrid ▸ List.mem_map_of_mem JobRow.job_id hr)
    · rw [List.mem_singleton] at hr
      subst hr
      exact ⟨rfl, rfl, rfl, rfl⟩

/-- Every id returned by the upsert loop names a row of the company whose
key comes from one of the scraped records. -/
theorem insertJobsLoop_ids_keys (t : Time) (cid : Nat) :
    ∀ (parsed : List Job) (jobs : List JobRow), JobsWF jobs →
      (∀ j ∈ parsed, ∃ b, j.location = some b) →
      ∀ id0 ∈ (insertJobsLoop jobs t cid parsed).1,
        ∀ r ∈ (insertJobsLoop jobs t cid parsed).2, r.job_id = id0 →
          r.company_id = cid ∧
          ∃ j ∈ parsed, r.title = j.title ∧ r.location = j.location := by
  intro parsed
  induction parsed with
  | nil =>
    intro jobs _ _ id0 hid0
    cases hid0
  | cons j rest ih =>
    intro jobs hwf hlocs id0 hid0 r hr hrid
    rcases List.mem_cons.mp hid0 with hid0 | hid0
    · obtain ⟨b, hb⟩ := hlocs j (List.mem_cons_self j rest)
      have hjid : (insertJob jobs t cid j.title j.description j.requirements
          j.location j.application_url j.posted_date).1 ∈
          (insertJob jobs t cid j.title j.description j.requirements
            j.location j.application_url j.posted_date).2.map JobRow.job_id :=
        insertJob_mem_ids jobs t cid j.title j.description j.requirements
          j.location j.application_url j.posted_date
      obtain ⟨x2, hx2, hx2id, hfc, hft, hfl⟩ :=
        insertJobsLoop_preserves_fields t cid rest _ _ hjid r hr
          (hrid.trans hid0)
      obtain ⟨hkc, hkt, hkl⟩ :=
        insertJob_returned_key jobs t cid j.title j.description
          j.requirements j.location j.application_url j.posted_date hwf.1 b hb
          x2 hx2 hx2id
      exact ⟨by rw [hfc, hkc], j, List.mem_cons_self j rest,
        by rw [hft, hkt], by rw [hfl, hkl]⟩
    · obtain ⟨hc, j', hj', hkey⟩ :=
        ih _ (insertJob_WF jobs t cid j.title j.description j.requirements
            j.location j.application_url j.posted_date hwf)
          (fun j' hj' => hlocs j' (List.mem_cons_of_mem j hj'))
          id0 hid0 r hr hrid
      exact ⟨hc, j', List.mem_cons_of_mem j hj', hkey⟩

/-- After the upsert loop, every scraped record has an active row of the
company with its key and payload, and that row's id is among the returned
ids. -/
theorem insertJobsLoop_saturates (t : Time) (cid : Nat) :
    ∀ (parsed : List Job) (jobs : List JobRow), JobsWF jobs →
      (∀ j ∈ parsed, ∃ b, j.location = some b) →
      ((parsed.map (fun j => (j.title, j.location))).Nodup) →
      ∀ j ∈ parsed, ∃ r ∈ (insertJobsLoop jobs t cid parsed).2,
        r.company_id = cid ∧ r.title = j.title ∧ r.location = j.location ∧
        payloadEq j r ∧ r.is_active = true ∧
        r.job_id ∈ (insertJobsLoop jobs t cid parsed).1 := by
  intro parsed
  induction parsed with
  | nil =>
    intro jobs _ _ _ j hj
    cases hj
  | cons j rest ih =>
    intro jobs hwf hlocs hkeys j0 hj0
    have hwf2 := insertJob_WF jobs t cid j.title j.description
      j.requirements j.location j.application_url j.posted_date hwf
    rcases List.mem_cons.mp hj0 with hj0 | hj0
    · subst hj0
      obtain ⟨b, hb⟩ := hlocs j0 (List.mem_cons_self j0 rest)
      have hjid := insertJob_mem_ids jobs t cid j0.title j0.description
        j0.requirements j0.location j0.application_url j0.posted_date
      rw [List.mem_map] at hjid
      obtain ⟨x, hx, hxid⟩ := hjid
      obtain ⟨hkc, hkt, hkl⟩ := insertJob_returned_key jobs t cid j0.title
        j0.description j0.requirements j0.location j0.application_url
        j0.posted_date hwf.1 b hb x hx hxid
      obtain ⟨hp1, hp2, hp3, hp4⟩ := insertJob_returned_payload jobs t cid
        j0.title j0.description j0.requirements j0.location
        j0.application_url j0.posted_date hwf.1 x hx hxid
      obtain ⟨hact, _⟩ := insertJob_returned_active jobs t cid j0.title
        j0.description j0.requirements j0.location j0.application_url
        j0.posted_date hwf.1 x hx hxid
      have hnk : ∀ j' ∈ rest,
          jobConflictKey cid j'.title j'.location x = false := by
        intro j' hj'
        rcases Bool.eq_false_or_eq_true
          (jobConflictKey cid j'.title j'.location x) with h | h
        · exfalso
          simp only [jobConflictKey, Bool.and_eq_true, decide_eq_true_eq] at h
          obtain ⟨⟨_, ht'⟩, hl'⟩ := h
          have hxlocb : x.location = some b := by rw [hkl, hb]
          obtain ⟨b', hb'⟩ : ∃ b', j'.location = some b' := by
            rcases hjl : j'.location with _ | bb
            · rw [hjl, locationConflict_none] at hl'
              cases hl'
            · exact ⟨bb, rfl⟩
          rw [hb', locationConflict_iff_eq] at hl'
          have hpair : (j0.title, j0.location) = (j'.title, j'.location) := by
            have h1 : j0.title = j'.title := by rw [← hkt, ht']
            have h2 : j0.location = j'.location := by
              rw [hb, hb', ← hl', ← hxlocb, hkl]
            rw [h1, h2]
          rw [List.map_cons, List.nodup_cons] at hkeys
          exact hkeys.1 (hpair ▸ List.mem_map_of_mem _ hj')
        · exact h
      refine ⟨x, insertJobsLoop_untouched t cid rest _ hwf2 x hx hnk,
        hkc, hkt, hkl, ⟨hp1, hp2, hp3, hp4⟩, hact, ?_⟩
      exact List.mem_cons.mpr (Or.inl hxid)
    · rw [List.map_cons, List.nodup_cons] at hkeys
      obtain ⟨r, hrmem, hprops⟩ := ih _ hwf2
        (fun j' hj' => hlocs j' (List.mem_cons_of_mem j hj'))
        hkeys.2 j0 hj0
      exact ⟨r, hrmem, hprops.1, hprops.2.1, hprops.2.2.1, hprops.2.2.2.1,
        hprops.2.2.2.2.1, List.mem_cons.mpr (Or.inr hprops.2.2.2.2.2)⟩

/-- Running the upsert loop over a table already saturated with the scraped
records only refreshes `updated_at` on the hit rows: the result is a map
over the input, every returned id names a row of the company carrying the
key of a scraped record, and conversely every row of the company whose key
matches a scraped record has its id returned. -/
theorem insertJobsLoop_saturated_run (t2 : Time) (cid : Nat) :
    ∀ (parsed : List Job) (J : List JobRow), JobsWF J →
      (∀ j ∈ parsed, ∃ b, j.location = some b) →
      ((parsed.map (fun j => (j.title, j.location))).Nodup) →
      Saturated cid J parsed →
      ((insertJobsLoop J t2 cid parsed).2 =
        J.map (fun r =>
          if r.job_id ∈ (insertJobsLoop J t2 cid parsed).1 then
            { r with updated_at := t2 }
          else r)) ∧
      (∀ id0 ∈ (insertJobsLoop J t2 cid parsed).1, ∃ r ∈ J,
        r.job_id = id0 ∧ r.company_id = cid ∧
        ∃ j' ∈ parsed, r.title = j'.title ∧ r.location = j'.location) ∧
      (∀ r ∈ J, r.company_id = cid →
        (∃ j0 ∈ parsed, r.title = j0.title ∧
          locationConflict r.location j0.location = true) →
        r.job_id ∈ (insertJobsLoop J t2 cid parsed).1) := by
  intro parsed
  induction parsed with
  | nil =>
    intro J _ _ _ _
    refine ⟨?_, ?_, ?_⟩
    · show J = J.map fun r =>
        if r.job_id ∈ ([] : List Nat) then { r with updated_at := t2 } else r
      rw [show (J.map fun r =>
          if r.job_id ∈ ([] : List Nat) then { r with updated_at := t2 }
          else r) = J.map id from
        List.map_congr_left (fun r _ => by simp), List.map_id]
    · intro id0 hid0
      cases hid0
    · intro r _ _ h
      obtain ⟨j0, hj0, _⟩ := h
      cases hj0
  | cons j rest ih =>
    intro J hwf hlocs hkeys hsat
    obtain ⟨b, hb⟩ := hlocs j (List.mem_cons_self j rest)
    obtain ⟨rj, hrjmem, hrjc, hrjt, hrjl, hrjpay, hrjact⟩ :=
      hsat j (List.mem_cons_self j rest)
    have hins := insertJob_sat_eq J t2 cid j hwf rj hrjmem hrjc hrjt hrjl
      hrjpay hrjact ⟨b, hb⟩
    have hfields : ∀ y : JobRow,
        ((if y.job_id = rj.job_id then { y with updated_at := t2 }
          else y) : JobRow).job_id = y.job_id ∧
        ((if y.job_id = rj.job_id then { y with updated_at := t2 }
          else y) : JobRow).company_id = y.company_id ∧
        ((if y.job_id = rj.job_id then { y with updated_at := t2 }
          else y) : JobRow).title = y.title ∧
        ((if y.job_id = rj.job_id then { y with updated_at := t2 }
          else y) : JobRow).location = y.location ∧
        ((if y.job_id = rj.job_id then { y with updated_at := t2 }
          else y) : JobRow).description = y.description ∧
        ((if y.job_id = rj.job_id then { y with updated_at := t2 }
          else y) : JobRow).requirements = y.requirements ∧
        ((if y.job_id = rj.job_id then { y with updated_at := t2 }
          else y) : JobRow).application_url = y.application_url ∧
        ((if y.job_id = rj.job_id then { y with updated_at := t2 }
          else y) : JobRow).posted_date = y.posted_date ∧
        ((if y.job_id = rj.job_id then { y with updated_at := t2 }
          else y) : JobRow).is_active = y.is_active := by
      intro y
      by_cases hy : y.job_id = rj.job_id <;> simp [hy]
    have hwfm : JobsWF (J.map fun y =>
        if y.job_id = rj.job_id then { y with updated_at := t2 } else y) :=
      jobsWF_map J _ (fun y => (hfields y).1) (fun y => (hfields y).2.1)
        (fun y => (hfields y).2.2.1) (fun y => (hfields y).2.2.2.1) hwf
    have hsatm : Saturated cid (J.map fun y =>
        if y.job_id = rj.job_id then { y with updated_at := t2 } else y)
        rest := by
      intro j' hj'
      obtain ⟨r', hr', p1, p2, p3, p4, p5⟩ :=
        hsat j' (List.mem_cons_of_mem j hj')
      refine ⟨_, List.mem_map_of_mem _ hr', ?_, ?_, ?_, ?_, ?_⟩
      · rw [(hfields r').2.1]
        exact p1
      · rw [(hfields r').2.2.1]
        exact p2
      · rw [(hfields r').2.2.2.1]
        exact p3
      · obtain ⟨q1, q2, q3, q4⟩ := p4
        exact ⟨by rw [(hfields r').2.2.2.2.1, q1],
          by rw [(hfields r').2.2.2.2.2.1, q2],
          by rw [(hfields r').2.2.2.2.2.2.1, q3],
          by rw [(hfields r').2.2.2.2.2.2.2.1, q4]⟩
      · rw [(hfields r').2.2.2.2.2.2.2.2]
        exact p5
    have hkeysr : ((rest.map (fun j' => (j'.title, j'.location))).Nodup) := by
      rw [List.map_cons, List.nodup_cons] at hkeys
      exact hkeys.2
    have hkeyhead : (j.title, j.location) ∉
        rest.map (fun j' => (j'.title, j'.location)) := by
      rw [List.map_cons, List.nodup_cons] at hkeys
      exact hkeys.1
    obtain ⟨ih1, ih2, ih3⟩ := ih _ hwfm
      (fun j' hj' => hlocs j' (List.mem_cons_of_mem j hj')) hkeysr hsatm
    have hstep : insertJobsLoop J t2 cid (j :: rest) =
        (rj.job_id :: (insertJobsLoop (J.map fun y =>
            if y.job_id = rj.job_id then { y with updated_at := t2 }
            else y) t2 cid rest).1,
         (insertJobsLoop (J.map fun y =>
            if y.job_id = rj.job_id then { y with updated_at := t2 }
            else y) t2 cid rest).2) := by
      conv_lhs => rw [insertJobsLoop]
      rw [hins]
    have hheadnotin : rj.job_id ∉ (insertJobsLoop (J.map fun y =>
        if y.job_id = rj.job_id then { y with updated_at := t2 }
        else y) t2 cid rest).1 := by
      intro hmem
      obtain ⟨y', hy', hy'id, _, j', hj', hy't, hy'l⟩ := ih2 rj.job_id hmem
      rw [List.mem_map] at hy'
      obtain ⟨y, hy, hyy'⟩ := hy'
      have hyid : y.job_id = rj.job_id := by
        rw [← (hfields y).1, hyy', hy'id]
      have hyrj : y = rj := List.inj_on_of_nodup_map hwf.1 hy hrjmem hyid
      subst hyrj
      apply hkeyhead
      have ht' : j'.title = j.title := by
        rw [← hy't, ← hyy', (hfields y).2.2.1, hrjt]
      have hl' : j'.location = j.location := by
        rw [← hy'l, ← hyy', (hfields y).2.2.2.1, hrjl]
      rw [← ht', ← hl']
      exact List.mem_map_of_mem _ hj'
    refine ⟨?_, ?_, ?_⟩
    · rw [hstep]
      dsimp only
      rw [ih1, List.map_map]
      refine List.map_congr_left ?_
      intro r hr
      simp only [Function.comp_apply]
      by_cases hidr : r.job_id = rj.job_id
      · rw [if_pos hidr]
        have hnotin : ({ r with updated_at := t2 } : JobRow).job_id ∉
            (insertJobsLoop (J.map fun y =>
              if y.job_id = rj.job_id then { y with updated_at := t2 }
              else y) t2 cid rest).1 := by
          show r.job_id ∉ _
          rw [hidr]
          exact hheadnotin
        rw [if_neg hnotin, if_pos (List.mem_cons.mpr (Or.inl hidr))]
      · rw [if_neg hidr]
        by_cases hin : r.job_id ∈ (insertJobsLoop (J.map fun y =>
            if y.job_id = rj.job_id then { y with updated_at := t2 }
            else y) t2 cid rest).1
        · rw [if_pos hin, if_pos (List.mem_cons.mpr (Or.inr hin))]
        · rw [if_neg hin, if_neg ?_]
          intro hmem
          rcases List.mem_cons.mp hmem with h | h
          · exact hidr h
          · exact hin h
    · rw [hstep]
      dsimp only
      intro id0 hid0
      rcases List.mem_cons.mp hid0 with hid0 | hid0
      · exact ⟨rj, hrjmem, hid0.symm, hrjc, j, List.mem_cons_self j rest,
          hrjt, hrjl⟩
      · obtain ⟨y', hy', hy'id, hy'c, j', hj', hy't, hy'l⟩ := ih2 id0 hid0
        rw [List.mem_map] at hy'
        obtain ⟨y, hy, hyy'⟩ := hy'
        refine ⟨y, hy, ?_, ?_, j', List.mem_cons_of_mem j hj', ?_, ?_⟩
        · rw [← (hfields y).1, hyy', hy'id]
        · rw [← (hfields y).2.1, hyy', hy'c]
        · rw [← (hfields y).2.2.1, hyy', hy't]
        · rw [← (hfields y).2.2.2.1, hyy', hy'l]
    · rw [hstep]
      dsimp only
      intro r hr hc hex
      obtain ⟨j0, hj0, hjt, hjl⟩ := hex
      rcases List.mem_cons.mp hj0 with hj0 | hj0
      · subst hj0
        have hkeyr : jobConflictKey cid j0.title j0.location r = true := by
          simp only [jobConflictKey, Bool.and_eq_true, decide_eq_true_eq]
          exact ⟨⟨hc, hjt⟩, hjl⟩
        have hkeyrj : jobConflictKey cid j0.title j0.location rj = true := by
          simp only [jobConflictKey, Bool.and_eq_true, decide_eq_true_eq]
          refine ⟨⟨hrjc, hrjt⟩, ?_⟩
          rw [hb, locationConflict_iff_eq, hrjl, hb]
        have h1 := find?_key_unique J cid j0.title j0.location hwf r hr hkeyr
        have h2 := find?_key_unique J cid j0.title j0.location hwf rj hrjmem
          hkeyrj
        have : r = rj := by
          have := h1.symm.trans h2
          exact Option.some.inj this
        rw [this]
        exact List.mem_cons_self _ _
      · apply List.mem_cons.mpr
        right
        have hmemr : (fun y => if y.job_id = rj.job_id then
            { y with updated_at := t2 } else y) r ∈ (J.map fun y =>
            if y.job_id = rj.job_id then { y with updated_at := t2 }
            else y) := List.mem_map_of_mem _ hr
        have := ih3 _ hmemr (by rw [(hfields r).2.1]; exact hc)
          ⟨j0, hj0, by rw [(hfields r).2.2.1]; exact hjt,
            by rw [(hfields r).2.2.2.1]; exact hjl⟩
        rw [(hfields r).1] at this
        exact this

theorem insertJobsLoop_length (t : Time) (cid : Nat) :
    ∀ (parsed : List Job) (jobs : List JobRow),
      (insertJobsLoop jobs t cid parsed).1.length = parsed.length := by
  intro parsed
  induction parsed with
  | nil => intro jobs; rfl
  | cons j rest ih =>
    intro jobs
    show _ + 1 = rest.length + 1
    rw [ih]

/-- On a non-empty scrape, the jobs-table effect of a pass is the upsert
loop followed by `mark_jobs_inactive`. -/
theorem workerJobsPass_eq (jobs : List JobRow) (now : Time) (cid : Nat)
    (parsed : List Job) (hne : parsed ≠ []) :
    workerJobsPass jobs now cid parsed =
      markJobsInactive (insertJobsLoop jobs now cid parsed).2 now cid
        (insertJobsLoop jobs now cid parsed).1 := by
  have hpe : parsed.isEmpty = false := by
    rcases Bool.eq_false_or_eq_true parsed.isEmpty with h | h
    · exact absurd (List.isEmpty_iff.mp h) hne
    · exact h
  have hidsne : (insertJobsLoop jobs now cid parsed).1.isEmpty = false := by
    rcases Bool.eq_false_or_eq_true
      (insertJobsLoop jobs now cid parsed).1.isEmpty with h | h
    · exfalso
      rw [List.isEmpty_iff_length_eq_zero, insertJobsLoop_length] at h
      exact hne (List.length_eq_zero.mp h)
    · exact h
  unfold workerJobsPass
  simp only [hpe, hidsne, Bool.false_eq_true, if_false]

theorem markJobsInactive_mem_untouched (jobs : List JobRow) (t : Time)
    (cid : Nat) (ids : List Nat) (r : JobRow) (hr : r ∈ jobs)
    (hin : r.job_id ∈ ids) : r ∈ markJobsInactive jobs t cid ids := by
  unfold markJobsInactive
  refine List.mem_map.mpr ⟨r, hr, ?_⟩
  rw [if_neg ?_]
  rw [(natContains_iff ids r.job_id).mpr hin]
  simp

theorem workerJobsPass_WF (jobs : List JobRow) (now : Time) (cid : Nat)
    (parsed : List Job) (hwf : JobsWF jobs) :
    JobsWF (workerJobsPass jobs now cid parsed) := by
  unfold workerJobsPass
  split
  · exact hwf
  · dsimp only
    split
    · exact insertJobsLoop_WF now cid parsed jobs hwf
    · exact markJobsInactive_WF _ now cid _
        (insertJobsLoop_WF now cid parsed jobs hwf)

/-- After a pass over a non-empty scrape, the table is saturated with the
scraped records. -/
theorem workerJobsPass_saturated (jobs : List JobRow) (t1 : Time)
    (cid : Nat) (parsed : List Job) (hwf : JobsWF jobs)
    (hlocs : ∀ j ∈ parsed, ∃ b, j.location = some b)
    (hkeys : ((parsed.map (fun j => (j.title, j.location))).Nodup))
    (hne : parsed ≠ []) :
    Saturated cid (workerJobsPass jobs t1 cid parsed) parsed := by
  rw [workerJobsPass_eq jobs t1 cid parsed hne]
  intro j hj
  obtain ⟨r, hrmem, p1, p2, p3, p4, p5, p6⟩ :=
    insertJobsLoop_saturates t1 cid parsed jobs hwf hlocs hkeys j hj
  exact ⟨r, markJobsInactive_mem_untouched _ t1 cid _ r hrmem p6,
    p1, p2, p3, p4, p5⟩

/-- After a pass, any still-active row of the company carries the key of
one of the scraped records. -/
theorem workerJobsPass_inactive_outside (jobs : List JobRow) (t1 : Time)
    (cid : Nat) (parsed : List Job) (hwf : JobsWF jobs)
    (hlocs : ∀ j ∈ parsed, ∃ b, j.location = some b)
    (hne : parsed ≠ []) :
    ∀ r ∈ workerJobsPass jobs t1 cid parsed, r.company_id = cid →
      r.is_active = true →
      ∃ j ∈ parsed, r.title = j.title ∧ r.location = j.location := by
  rw [workerJobsPass_eq jobs t1 cid parsed hne]
  intro r hr hc hact
  unfold markJobsInactive at hr
  rw [List.mem_map] at hr
  obtain ⟨x, hx, hxr⟩ := hr
  by_cases hcond : (x.company_id = cid && !((insertJobsLoop jobs t1 cid
      parsed).1.contains x.job_id)) = true
  · rw [if_pos hcond] at hxr
    rw [← hxr] at hact
    cases hact
  · rw [if_neg hcond] at hxr
    subst hxr
    have hcont : (insertJobsLoop jobs t1 cid parsed).1.contains x.job_id
        = true := by
      rcases Bool.eq_false_or_eq_true
        ((insertJobsLoop jobs t1 cid parsed).1.contains x.job_id) with h | h
      · exact h
      · exfalso
        apply hcond
        rw [h]
        simp [hc]
    have hin := (natContains_iff _ x.job_id).mp hcont
    obtain ⟨_, j, hj, ht, hl⟩ :=
      insertJobsLoop_ids_keys t1 cid parsed jobs hwf hlocs x.job_id hin
        x hx rfl
    exact ⟨j, hj, ht, hl⟩

/-- C6 as stated is false: re-running the pass on an unchanged source

leaves `scraped_at` untouched but refreshes `updated_at`, so the rows are
not byte-equal outside `scraped_at`. -/
theorem C6_counterexample :
    ∃ r1 ∈ workerJobsPass [] 0 1 [{ title := "t", location := some "l" }],
      ∃ r2 ∈ workerJobsPass
          (workerJobsPass [] 0 1 [{ title := "t", location := some "l" }])
          5 1 [{ title := "t", location := some "l" }],
        r1.job_id = r2.job_id ∧
        ¬ r2 = { r1 with scraped_at := r2.scraped_at } ∧
        r2 = { r1 with updated_at := r2.updated_at } := by
  decide

/-- C6 amended: running the worker's pass twice in succession on an
unchanged source (well-formed table, scraped records with non-NULL
locations and distinct keys) yields the same jobs-table state up to the
`updated_at` column: the second pass equals the first-pass state with
`updated_at` refreshed on the company's rows and every other column
(including `scraped_at`) byte-equal; rows of other companies are
untouched. -/
theorem C6_worker_idempotent (J0 : List JobRow) (t1 t2 : Time) (cid : Nat)
    (parsed : List Job) (hwf : JobsWF J0)
    (hlocs : ∀ j ∈ parsed, ∃ b, j.location = some b)
    (hkeys : ((parsed.map (fun j => (j.title, j.location))).Nodup))
    (hne : parsed ≠ []) :
    workerJobsPass (workerJobsPass J0 t1 cid parsed) t2 cid parsed =
      touchCompany t2 cid (workerJobsPass J0 t1 cid parsed) := by
  have hS1wf : JobsWF (workerJobsPass J0 t1 cid parsed) :=
    workerJobsPass_WF J0 t1 cid parsed hwf
  have hS1sat : Saturated cid (workerJobsPass J0 t1 cid parsed) parsed :=
    workerJobsPass_saturated J0 t1 cid parsed hwf hlocs hkeys hne
  have hS1out := workerJobsPass_inactive_outside J0 t1 cid parsed hwf
    hlocs hne
  obtain ⟨L1, L2, L3⟩ := insertJobsLoop_saturated_run t2 cid parsed
    (workerJobsPass J0 t1 cid parsed) hS1wf hlocs hkeys hS1sat
  rw [workerJobsPass_eq _ t2 cid parsed hne, L1]
  unfold markJobsInactive touchCompany
  rw [List.map_map]
  refine List.map_congr_left ?_
  intro r hr
  simp only [Function.comp_apply]
  by_cases hin : r.job_id ∈ (insertJobsLoop
      (workerJobsPass J0 t1 cid parsed) t2 cid parsed).1
  · obtain ⟨r', hr', hr'id, hr'c, _⟩ := L2 _ hin
    have hrr : r' = r := List.inj_on_of_nodup_map hS1wf.1 hr' hr hr'id
    subst hrr
    rw [if_pos hin, if_pos hr'c]
    rw [if_neg ?_]
    show ¬ (decide (({ r' with updated_at := t2 } : JobRow).company_id = cid)
      && !((insertJobsLoop (workerJobsPass J0 t1 cid parsed) t2 cid
        parsed).1.contains ({ r' with updated_at := t2 } : JobRow).job_id))
      = true
    have : ((insertJobsLoop (workerJobsPass J0 t1 cid parsed) t2 cid
        parsed).1.contains r'.job_id) = true :=
      (natContains_iff _ r'.job_id).mpr hin
    show ¬ (decide (r'.company_id = cid) && !((insertJobsLoop
      (workerJobsPass J0 t1 cid parsed) t2 cid parsed).1.contains
        r'.job_id)) = true
    rw [this]
    simp
  · rw [if_neg hin]
    by_cases hc : r.company_id = cid
    · have hact : r.is_active = false := by
        rcases Bool.eq_false_or_eq_true r.is_active with h | h
        · exfalso
          obtain ⟨j, hj, ht, hl⟩ := hS1out r hr hc h
          obtain ⟨b, hb⟩ := hlocs j hj
          apply hin
          refine L3 r hr hc ⟨j, hj, ht, ?_⟩
          rw [hb, locationConflict_iff_eq, hl, hb]
        · exact h
      have hcont : ((insertJobsLoop (workerJobsPass J0 t1 cid parsed) t2
          cid parsed).1.contains r.job_id) = false := by
        rcases Bool.eq_false_or_eq_true ((insertJobsLoop
          (workerJobsPass J0 t1 cid parsed) t2 cid parsed).1.contains
            r.job_id) with h | h
        · exact absurd ((natContains_iff _ r.job_id).mp h) hin
        · exact h
      rw [if_pos ?_, if_pos hc]
      · rw [← hact]
      · rw [hcont]
        simp [hc]
    · rw [if_neg ?_, if_neg hc]
      simp [hc]

/-- Witness for C6: a concrete double pass only refreshes `updated_at`. -/
theorem C6_worker_idempotent_witness :
    workerJobsPass
        (workerJobsPass [] 0 1 [{ title := "t", location := some "l" }])
        5 1 [{ title := "t", location := some "l" }] =
      touchCompany 5 1
        (workerJobsPass [] 0 1 [{ title := "t", location := some "l" }]) :=
  C6_worker_idempotent [] 0 5 1 [{ title := "t", location := some "l" }]
    ⟨List.nodup_nil, List.Pairwise.nil⟩
    (by
      intro j hj
      rw [List.mem_singleton] at hj
      subst hj
      exact ⟨"l", rfl⟩)
    (by decide) (by decide)

/-! ## Smart crawl (`CareerCrawler.crawl_company_smart`, C10 / C4) and the
task-queue worker (`crawl_company_task`, C4) -/

/-- `CareerCrawler.get_cached_jobs`: the entry for the company iff it has
not expired (`WHERE company_id = $1 AND expires_at > NOW()`). -/
def getCachedJobs (cfg : CrawlerCfg) (cache : List CacheRow) (now : Time)
    (cid : Nat) : Option CacheRow :=
  if cfg.useCache then
    cache.find? (fun r => r.company_id = cid && now < r.expires_at)
  else none

/-- The job dictionaries cached by the HTML path: the company's active rows
read back from the `jobs` table. -/
def activeJobsDicts (jobs : List JobRow) (cid : Nat) : List Job :=
  (jobs.filter (fun r => r.company_id = cid && r.is_active)).map fun r =>
    { title := r.title
      location := r.location
      description := r.description
      requirements := r.requirements
      application_url := r.application_url
      posted_date := r.posted_date }

/-- The result record of `crawl_company_smart` (wall-clock `duration_ms`
is not modelled). -/
structure SmartStats where
  company_name : String
  success : Bool
  jobs_found : Nat
  jobs_inserted : Nat
  method : String
  cache_hit : Bool
  errors : List String
  deriving DecidableEq, Repr

/-- Step 3 of the smart crawl: delegate to `crawl_company`, then cache the
company's active rows when the pass succeeded with jobs. -/
def smartHtmlFallback (cfg : CrawlerCfg) (htmlOk : Bool)
    (atsDetected : Option String) (parsed : List Job) (elapsedMs : Int)
    (st0 : DBState) (now : Time) (companyName careerUrl : String)
    (cid : Nat) : SmartStats × DBState :=
  let r := crawlCompany st0 now companyName careerUrl htmlOk atsDetected
    parsed
  let newCache := crawlerUpdateJobCache cfg r.2.job_cache now cid
    (activeJobsDicts r.2.jobs cid) (some "html") elapsedMs
  let st3 : DBState :=
    if r.1.success = true ∧ 0 < r.1.jobs_found then
      { r.2 with job_cache := newCache }
    else r.2
  ({ company_name := companyName
     success := r.1.success
     jobs_found := r.1.jobs_found
     jobs_inserted := r.1.jobs_inserted
     method := "html"
     cache_hit := false
     errors := r.1.errors }, st3)

/-- `CareerCrawler.crawl_company_smart`: cache probe, ATS-API attempt
(taken only on a non-empty job list), HTML fallback (whose cache
write-back is guarded by `success and jobs_found > 0`). -/
def crawlCompanySmart (cfg : CrawlerCfg)
    (fetch : String → String → FetchOutcome) (dur : String → String → Int)
    (htmlOk : Bool) (atsDetected : Option String) (parsed : List Job)
    (elapsedMs : Int) (st : DBState) (now : Time)
    (companyName careerUrl : String) (companyId : Option Nat)
    (forceRefresh : Bool) : SmartStats × DBState :=
  let p := match companyId with
    | some cid => (cid, st.companies)
    | none => insertCompany st.companies companyName careerUrl none
  let cid := p.1
  let st0 : DBState := { st with companies := p.2 }
  match
    (if forceRefresh = false ∧ cfg.useCache = true then
      getCachedJobs cfg st0.job_cache now cid
    else none) with
  | some entry =>
    ({ company_name := companyName
       success := true
       jobs_found := entry.job_count
       jobs_inserted := entry.job_count
       method := "cache"
       cache_hit := true
       errors := [] }, st0)
  | none =>
    match getAtsApiClient careerUrl with
    | some c =>
      let jd := getJobs fetch dur c careerUrl
      if jd.1.isEmpty = false then
        let newCache := crawlerUpdateJobCache cfg st0.job_cache now cid
          jd.1 (some c.name) (jd.2 * 1000)
        let st1 : DBState := { st0 with job_cache := newCache }
        let t := insertJobsLoop st1.jobs now cid jd.1
        let st2 : DBState :=
          { st1 with
            jobs := t.2
            companies := updateCompanyCrawlTime st1.companies now cid }
        ({ company_name := companyName
           success := true
           jobs_found := jd.1.length
           jobs_inserted := t.1.length
           method := "api:" ++ c.name
           cache_hit := false
           errors := [] }, st2)
      else
        smartHtmlFallback cfg htmlOk atsDetected parsed elapsedMs st0 now
          companyName careerUrl cid
    | none =>
      smartHtmlFallback cfg htmlOk atsDetected parsed elapsedMs st0 now
        companyName careerUrl cid

/-- The cache-and-company update of the task-queue `update_job_cache`
(also sets `companies.last_crawled` and `ats_type`). -/
def updateJobCacheTask (st : DBState) (now : Time) (cid : Nat)
    (jobs : List Job) (ats : Option String) (durMs : Int) : DBState :=
  { st with
    job_cache := updateJobCacheSQL st.job_cache now cid jobs ats durMs
    companies := st.companies.map fun c =>
      if c.company_id = cid then
        { c with last_crawled := some now, ats_type := ats }
      else c }

/-- The result record of `crawl_company_task`. -/
structure TaskResult where
  company_id : Nat
  name : String
  success : Bool
  jobs_found : Nat
  method : String
  error : Option String
  deriving DecidableEq, Repr

/-- `crawl_company_task` (the taskiq worker): ATS API first — the branch is
taken whenever `jobs is not None`, an empty list included — else the HTML
fallback through `CareerCrawler.crawl_company` (whose `jobs_found` is
taken from `jobs_inserted`). -/
def crawlCompanyTask (fetch : String → String → FetchOutcome)
    (dur : String → String → Int) (htmlOk : Bool)
    (atsDetected : Option String) (parsed : List Job) (st : DBState)
    (now : Time) (cid : Nat) (name careerUrl : String) :
    TaskResult × DBState :=
  let f := fetchJobsViaApi fetch dur careerUrl
  match f.1 with
  | some jobs =>
    let st2 := updateJobCacheTask st now cid jobs f.2.1 (f.2.2 * 1000)
    ({ company_id := cid
       name := name
       success := true
       jobs_found := jobs.length
       method := "api:" ++ (f.2.1.getD "None")
       error := none }, st2)
  | none =>
    let r := crawlCompany st now name careerUrl htmlOk atsDetected parsed
    ({ company_id := cid
       name := name
       success := r.1.success
       jobs_found := r.1.jobs_inserted
       method := "html"
       error := if r.1.errors.isEmpty then none
         else some (String.intercalate "; " r.1.errors) }, r.2)

theorem updateJobCacheSQL_any (cache : List CacheRow) (now : Time)
    (cid : Nat) (jobs : List Job) (ats : Option String) (durMs : Int) :
    (updateJobCacheSQL cache now cid jobs ats durMs).any
      (fun r => r.company_id = cid) = true := by
  unfold updateJobCacheSQL
  by_cases hany : cache.any (fun r => r.company_id = cid) = true
  · rw [if_pos hany]
    rw [List.any_eq_true] at hany ⊢
    obtain ⟨r, hr, hrc⟩ := hany
    simp only [decide_eq_true_eq] at hrc
    refine ⟨_, List.mem_map_of_mem _ hr, ?_⟩
    simp [hrc]
  · rw [if_neg hany]
    simp

theorem updateJobCacheSQL_payload (cache : List CacheRow) (now : Time)
    (cid : Nat) (jobs : List Job) (ats : Option String) (durMs : Int) :
    ∀ r ∈ updateJobCacheSQL cache now cid jobs ats durMs,
      r.company_id = cid →
        r.crawled_at = now ∧ r.expires_at = now + 86400 ∧ r.jobs = jobs ∧
        r.job_count = jobs.length ∧ r.ats_type = ats ∧
        r.crawl_duration_ms = durMs := by
  unfold updateJobCacheSQL
  by_cases hany : cache.any (fun r => r.company_id = cid) = true
  · rw [if_pos hany]
    intro r hr hrc
    rw [List.mem_map] at hr
    obtain ⟨x, _, hx⟩ := hr
    by_cases hxc : x.company_id = cid
    · rw [if_pos hxc] at hx
      rw [← hx]
      exact ⟨rfl, rfl, rfl, rfl, rfl, rfl⟩
    · rw [if_neg hxc] at hx
      exact absurd (hx ▸ hrc) hxc
  · rw [if_neg hany]
    intro r hr hrc
    rw [List.mem_append] at hr
    rcases hr with hr | hr
    · exfalso
      exact hany (List.any_eq_true.mpr ⟨r, hr, by simp [hrc]⟩)
    · rw [List.mem_singleton] at hr
      subst hr
      exact ⟨rfl, rfl, rfl, rfl, rfl, rfl⟩

/-- C10: whenever `crawl_company_smart` takes the cache-hit path
(`use_cache` on, `force_refresh` off, a company id, and a fresh cache
entry), it returns `method = "cache"`, `cache_hit = true`,
`success = true`, `jobs_found = jobs_inserted = job_count`, leaves the
whole database state unchanged — in particular writes no `jobs` rows —
and the result does not depend on the HTTP oracles (no request is
issued). -/
theorem C10_cache_hit (cfg : CrawlerCfg) (hcfg : cfg.useCache = true)
    (fetch : String → String → FetchOutcome) (dur : String → String → Int)
    (htmlOk : Bool) (atsDetected : Option String) (parsed : List Job)
    (elapsedMs : Int) (st : DBState) (now : Time)
    (companyName careerUrl : String) (cid : Nat) (entry : CacheRow)
    (hhit : getCachedJobs cfg st.job_cache now cid = some entry) :
    crawlCompanySmart cfg fetch dur htmlOk atsDetected parsed elapsedMs st
        now companyName careerUrl (some cid) false =
      ({ company_name := companyName
         success := true
         jobs_found := entry.job_count
         jobs_inserted := entry.job_count
         method := "cache"
         cache_hit := true
         errors := [] }, st) := by
  unfold crawlCompanySmart
  dsimp only
  rw [show (if (false = false ∧ cfg.useCache = true) then
      getCachedJobs cfg st.job_cache now cid
    else none) = some entry from by
    rw [if_pos ⟨rfl, hcfg⟩]
    exact hhit]

/-- Witness for C10 on a concrete fresh cache entry (12 cached jobs). -/
def c10State : DBState :=
  { companies := [{
      company_id := 1
      name := "Acme"
      career_page_url := "https://acme.example/careers"
      ats_type := none
      last_crawled := some 0 }]
    jobs := []
    job_cache := [{
      company_id := 1
      jobs := []
      job_count := 12
      crawled_at := 0
      expires_at := 3600
      ats_type := some "greenhouse"
      crawl_duration_ms := 100
      created_at := 0
      updated_at := 0 }]
    subs := [] }

theorem C10_cache_hit_witness :
    crawlCompanySmart {} (fun _ _ => .httpError) (fun _ _ => 0) false none
        [] 0 c10State 50 "Acme" "https://acme.example/careers" (some 1)
        false =
      ({ company_name := "Acme"
         success := true
         jobs_found := 12
         jobs_inserted := 12
         method := "cache"
         cache_hit := true
         errors := [] }, c10State) :=
  C10_cache_hit {} rfl (fun _ _ => .httpError) (fun _ _ => 0) false none []
    0 c10State 50 "Acme" "https://acme.example/careers" 1
    ((c10State.job_cache).head (by decide)) (by decide)

/-- C4 as stated fails on `crawl_company_smart`: with a provider match and
a successful API request returning an empty list, the smart crawl falls
through to the HTML path (the `if jobs:` guard), and when that fails no
cache entry is written at all. -/
def c4State : DBState :=
  { companies := [{
      company_id := 1
      name := "Acme"
      career_page_url := "https://boards.greenhouse.io/acme"
      ats_type := some "greenhouse"
      last_crawled := none }]
    jobs := []
    job_cache := []
    subs := [] }

theorem C4_counterexample :
    (fetchJobsViaApi (fun _ _ => .ok []) (fun _ _ => 2)
      "https://boards.greenhouse.io/acme").1 = some [] ∧
    (crawlCompanySmart {} (fun _ _ => .ok []) (fun _ _ => 2) false none []
      0 c4State 50 "Acme" "https://boards.greenhouse.io/acme" (some 1)
      false).2.job_cache = [] ∧
    (crawlCompanySmart {} (fun _ _ => .ok []) (fun _ _ => 2) false none []
      0 c4State 50 "Acme" "https://boards.greenhouse.io/acme" (some 1)
      false).1.success = false := by
  refine ⟨by decide, by decide, by decide⟩

/-- C4 amended: in the task-queue worker `crawl_company_task`, a matched
provider whose request succeeds with an empty job list still takes the
API branch (`jobs is not None`): the cache entry for the company is
upserted with `crawled_at = now` and `expires_at = now + 24 h > now`,
`job_count = 0`, and the task returns `success = true` with
`jobs_found = 0`. In `crawl_company_smart` the same situation instead
falls through to the HTML fallback and the cache is only written if that
fallback succeeds with jobs. -/
theorem C4_empty_api_updates_cache
    (fetch : String → String → FetchOutcome) (dur : String → String → Int)
    (htmlOk : Bool) (atsDetected : Option String) (parsed : List Job)
    (st : DBState) (now : Time) (cid : Nat) (name careerUrl : String)
    (c : ATSApiClient) (slug : String)
    (hclient : getAtsApiClient careerUrl = some c)
    (hslug : c.extractCompanySlug careerUrl = some slug)
    (hfetch : fetch c.name slug = .ok []) :
    (crawlCompanyTask fetch dur htmlOk atsDetected parsed st now cid name
      careerUrl).1.jobs_found = 0 ∧
    (crawlCompanyTask fetch dur htmlOk atsDetected parsed st now cid name
      careerUrl).1.success = true ∧
    (crawlCompanyTask fetch dur htmlOk atsDetected parsed st now cid name
      careerUrl).1.method = "api:" ++ c.name ∧
    ((crawlCompanyTask fetch dur htmlOk atsDetected parsed st now cid name
      careerUrl).2.job_cache.any (fun r => r.company_id = cid) = true) ∧
    (∀ r ∈ (crawlCompanyTask fetch dur htmlOk atsDetected parsed st now
        cid name careerUrl).2.job_cache, r.company_id = cid →
      r.crawled_at = now ∧ r.expires_at = now + 86400 ∧ r.job_count = 0 ∧
      now < r.expires_at) := by
  have hapi : fetchJobsViaApi fetch dur careerUrl =
      (some [], some c.name, dur c.name slug) := by
    unfold fetchJobsViaApi getJobs
    rw [hclient]
    dsimp only
    rw [hslug]
    dsimp only
    rw [hfetch]
  unfold crawlCompanyTask
  rw [hapi]
  dsimp only
  refine ⟨rfl, rfl, rfl, ?_, ?_⟩
  · exact updateJobCacheSQL_any st.job_cache now cid [] (some c.name) _
  · intro r hr hrc
    obtain ⟨h1, h2, h3, h4, _, _⟩ :=
      updateJobCacheSQL_payload st.job_cache now cid [] (some c.name) _ r
        hr hrc
    refine ⟨h1, h2, by rw [h4]; rfl, ?_⟩
    rw [h2]
    show now < now + 86400
    norm_num

/-- Witness for C4 at a concrete greenhouse company with an empty but
successful provider response. -/
theorem C4_empty_api_updates_cache_witness :
    (crawlCompanyTask (fun _ _ => .ok []) (fun _ _ => 2) false none []
      c4State 50 1 "Acme" "https://boards.greenhouse.io/acme").1.jobs_found
      = 0 ∧
    (crawlCompanyTask (fun _ _ => .ok []) (fun _ _ => 2) false none []
      c4State 50 1 "Acme" "https://boards.greenhouse.io/acme").1.success
      = true :=
  ⟨(C4_empty_api_updates_cache (fun _ _ => .ok []) (fun _ _ => 2) false
      none [] c4State 50 1 "Acme" "https://boards.greenhouse.io/acme"
      greenhouseAPI "acme" rfl rfl rfl).1,
   (C4_empty_api_updates_cache (fun _ _ => .ok []) (fun _ _ => 2) false
      none [] c4State 50 1 "Acme" "https://boards.greenhouse.io/acme"
      greenhouseAPI "acme" rfl rfl rfl).2.1⟩

/-! ## Rate gate (src/crawler/crawler/rate_limiter.py, C8)

One origin is modelled (the per-domain lock serialises its acquires; other
origins are independent). An acquire call is described by its arrival time
`a` (the `datetime.now()` captured under the lock), the jitter draw `j`
(`random.uniform(min_delay, max_delay)`) and the warm-up draw `d` (used on
the first request only). Sleeps are exact; the admission time is the
instant `acquire` returns. -/

structure RLConfig where
  requests_per_minute : Nat := 20
  min_delay : Int := 2
  max_delay : Int := 5
  deriving DecidableEq, Repr

/-- The per-domain counters of `RateLimiter`. `initialized` stands for
`domain in self.window_start`. -/
structure RLState where
  initialized : Bool
  window_start : Int
  count : Nat
  last_request : Option Int
  deriving DecidableEq, Repr

def initialRL : RLState :=
  { initialized := false, window_start := 0, count := 0,
    last_request := none }

/-- One `acquire` call: initialise the window, reset it when older than
60 s, sleep out the window remainder when the counter is full (then reset),
then apply the jitter (computed against the stale `now`) or the first-call
warm-up; returns the new state and the admission time. -/
def acquireStep (cfg : RLConfig) (s : RLState) (a j d : Int) :
    RLState × Int :=
  let ws0 := if s.initialized then s.window_start else a
  let c0 := if s.initialized then s.count else 0
  let ws1 := if 60 < a - ws0 then a else ws0
  let c1 := if 60 < a - ws0 then 0 else c0
  let limitHit := cfg.requests_per_minute ≤ c1 ∧ 0 < 60 - (a - ws1)
  let ws2 := if limitHit then a + (60 - (a - ws1)) else ws1
  let c2 := if limitHit then 0 else c1
  let t1 := if limitHit then a + (60 - (a - ws1)) else a
  let t2 := match s.last_request with
    | some last => if a - last < j then t1 + (j - (a - last)) else t1
    | none => t1 + d
  ({ initialized := true, window_start := ws2, count := c2 + 1,
     last_request := some t2 }, t2)

/-- Run a sequence of acquire calls, collecting the admission times. -/
def runRL (cfg : RLConfig) (s : RLState) :
    List (Int × Int × Int) → List Int
  | [] => []
  | (a, j, d) :: rest =>
    let r := acquireStep cfg s a j d
    r.2 :: runRL cfg r.1 rest

/-- A call sequence the code can actually produce: jitters within the
configured bounds, non-negative warm-ups, and each arrival no earlier than
the previous admission (the domain lock is held across the sleeps). -/
def validFrom (cfg : RLConfig) (s : RLState) :
    List (Int × Int × Int) → Bool
  | [] => true
  | (a, j, d) :: rest =>
    (cfg.min_delay ≤ j) && (j ≤ cfg.max_delay) && (0 ≤ d) &&
    (match s.last_request with
     | some last => decide (last ≤ a)
     | none => true) &&
    validFrom cfg (acquireStep cfg s a j d).1 rest

/-- Admissions within the wall-clock window `[t, t+60)`. -/
def admissionsIn (adm : List Int) (t : Int) : Nat :=
  (adm.filter (fun x => decide (t ≤ x) && decide (x < t + 60))).length

/-- The trace refuting the rate ceiling: one request at time 0, nineteen
requests at 22 s .. 58 s filling the first fixed window, and twenty more
from 61 s on in the reset window. -/
def c8Trace : List (Int × Int × Int) :=
  [((0 : Int), (2 : Int), (1 : Int))] ++
  ((List.range 19).map fun k => (((22 : Int) + 2 * (k : Int)), 2, 0)) ++
  [((61 : Int), 2, 0)] ++
  ((List.range 19).map fun k => (((63 : Int) + 2 * (k : Int)), 2, 0))

/-- C8 as stated is false: on a valid call sequence, the wall-clock window
`[22 s, 82 s)` contains 30 admissions, exceeding `requests_per_minute =
20` — the fixed-window counter does not bound sliding 60 s windows. -/
theorem C8_counterexample :
    validFrom {} initialRL c8Trace = true ∧
    20 < admissionsIn (runRL {} initialRL c8Trace) 22 := by
  refine ⟨by decide, by decide⟩

theorem acquireStep_last (cfg : RLConfig) (s : RLState) (a j d : Int) :
    (acquireStep cfg s a j d).1.last_request =
      some (acquireStep cfg s a j d).2 := rfl

/-- Spacing: once an origin has a previous admission, the next admission
is at least the jitter after it. -/
theorem acquireStep_ge (cfg : RLConfig) (s : RLState) (a j d last : Int)
    (hl : s.last_request = some last) (ha : last ≤ a) (hj : 2 ≤ j) :
    last + 2 ≤ (acquireStep cfg s a j d).2 := by
  unfold acquireStep
  rw [hl]
  dsimp only
  split_ifs <;> omega

theorem runRL_chain (cfg : RLConfig) (hmin : 2 ≤ cfg.min_delay) :
    ∀ (calls : List (Int × Int × Int)) (s : RLState),
      validFrom cfg s calls = true →
      (s.last_request = none →
        List.Chain' (fun x y => x + 2 ≤ y) (runRL cfg s calls)) ∧
      (∀ last, s.last_request = some last →
        List.Chain (fun x y => x + 2 ≤ y) last (runRL cfg s calls)) := by
  intro calls
  induction calls with
  | nil =>
    intro s _
    exact ⟨fun _ => trivial, fun last _ => List.Chain.nil⟩
  | cons c rest ih =>
    intro s hv
    obtain ⟨a, j, d⟩ := c
    simp only [validFrom, Bool.and_eq_true, decide_eq_true_eq] at hv
    obtain ⟨⟨⟨⟨hj1, _⟩, _⟩, hlast⟩, hvrest⟩ := hv
    obtain ⟨ih1, ih2⟩ := ih (acquireStep cfg s a j d).1 hvrest
    have htail : List.Chain (fun x y => x + 2 ≤ y)
        (acquireStep cfg s a j d).2
        (runRL cfg (acquireStep cfg s a j d).1 rest) :=
      ih2 _ (acquireStep_last cfg s a j d)
    constructor
    · intro _
      show List.Chain (fun x y => x + 2 ≤ y) (acquireStep cfg s a j d).2
        (runRL cfg (acquireStep cfg s a j d).1 rest)
      exact htail
    · intro last hsl
      show List.Chain (fun x y => x + 2 ≤ y) last
        ((acquireStep cfg s a j d).2 ::
          runRL cfg (acquireStep cfg s a j d).1 rest)
      refine List.chain_cons.mpr ⟨?_, htail⟩
      have ha : last ≤ a := by
        rw [hsl] at hlast
        simpa using hlast
      exact acquireStep_ge cfg s a j d last hsl ha (le_trans hmin hj1)

theorem chain_head_le (x : Int) :
    ∀ (l : List Int), List.Chain (fun u v => u + 2 ≤ v) x l →
      ∀ y ∈ l, x + 2 ≤ y := by
  intro l
  induction l generalizing x with
  | nil =>
    intro _ y hy
    cases hy
  | cons z rest ih =>
    intro h y hy
    rw [List.chain_cons] at h
    rcases List.mem_cons.mp hy with hy | hy
    · subst hy
      exact h.1
    · have := ih z h.2 y hy
      omega

theorem length_filter_le_of_imp {α : Type} (p q : α → Bool) :
    ∀ (l : List α), (∀ y ∈ l, p y = true → q y = true) →
      (l.filter p).length ≤ (l.filter q).length := by
  intro l
  induction l with
  | nil => intro _; exact le_refl 0
  | cons x rest ih =>
    intro h
    have hr := ih (fun y hy => h y (List.mem_cons_of_mem x hy))
    rw [List.filter_cons, List.filter_cons]
    rcases Bool.eq_false_or_eq_true (p x) with hp | hp
    · rw [if_pos hp, if_pos (h x (List.mem_cons_self x rest) hp)]
      simpa using hr
    · rw [if_neg (by simp [hp])]
      rcases Bool.eq_false_or_eq_true (q x) with hq | hq
      · rw [if_pos hq]
        exact le_trans hr (by simp)
      · rw [if_neg (by simp [hq])]
        exact hr

/-- Elements spaced at least 2 s apart: at most `(W+1)/2 + 1` of them fit
in a window of length `W`. -/
theorem gap2_window_bound :
    ∀ (l : List Int), List.Chain' (fun x y => x + 2 ≤ y) l →
      ∀ (t W : Int), -1 ≤ W →
        ((l.filter (fun x =>
          decide (t ≤ x) && decide (x < t + W))).length : Int) ≤
          (W + 1) / 2 + 1 := by
  intro l
  induction l with
  | nil =>
    intro _ t W hW
    simp only [List.filter_nil, List.length_nil, Int.ofNat_zero]
    omega
  | cons x rest ih =>
    intro h t W hW
    have hchain : List.Chain (fun u v => u + 2 ≤ v) x rest := h
    have hrest : List.Chain' (fun u v => u + 2 ≤ v) rest := by
      match rest, hchain with
      | [], _ => trivial
      | y :: rest2, hc => exact (List.chain_cons.mp hc).2
    rw [List.filter_cons]
    rcases Bool.eq_false_or_eq_true
      (decide (t ≤ x) && decide (x < t + W)) with hp | hp
    · rw [if_pos hp]
      simp only [Bool.and_eq_true, decide_eq_true_eq] at hp
      obtain ⟨hx1, hx2⟩ := hp
      have hmono := length_filter_le_of_imp
        (fun y => decide (t ≤ y) && decide (y < t + W))
        (fun y => decide ((x + 2) ≤ y) &&
          decide (y < (x + 2) + (t + W - x - 2))) rest
        (by
          intro y hy hpy
          simp only [Bool.and_eq_true, decide_eq_true_eq] at hpy ⊢
          exact ⟨chain_head_le x rest hchain y hy, by omega⟩)
      have hIH := ih hrest (x + 2) (t + W - x - 2) (by omega)
      have hlen : ((rest.filter (fun y =>
          decide (t ≤ y) && decide (y < t + W))).length : Int) ≤
          (t + W - x - 2 + 1) / 2 + 1 := by
        calc ((rest.filter (fun y =>
            decide (t ≤ y) && decide (y < t + W))).length : Int)
            ≤ ((rest.filter (fun y => decide ((x + 2) ≤ y) &&
                decide (y < (x + 2) + (t + W - x - 2)))).length : Int) := by
              exact_mod_cast hmono
          _ ≤ (t + W - x - 2 + 1) / 2 + 1 := hIH
      simp only [List.length_cons]
      push_cast
      omega
    · rw [if_neg (by simp [hp])]
      exact ih hrest t W hW

/-- C8 amended: the fixed-window counter does not enforce the 20-per-60 s
ceiling over arbitrary wall-clock windows (up to 30 admissions fit, see
the counterexample); what the gate does guarantee, through the jitter,
is that consecutive admissions for an origin are at least
`min_delay = 2 s` apart, so any wall-clock 60 s window contains at most
31 admissions for that origin. -/
theorem C8_rate_spacing (cfg : RLConfig) (hmin : 2 ≤ cfg.min_delay)
    (calls : List (Int × Int × Int))
    (hv : validFrom cfg initialRL calls = true) :
    List.Chain' (fun x y => x + 2 ≤ y) (runRL cfg initialRL calls) ∧
    ∀ t : Int, admissionsIn (runRL cfg initialRL calls) t ≤ 31 := by
  have hchain := (runRL_chain cfg hmin calls initialRL hv).1 rfl
  refine ⟨hchain, ?_⟩
  intro t
  have := gap2_window_bound (runRL cfg initialRL calls) hchain t 60
    (by omega)
  unfold admissionsIn
  omega

/-- Witness for C8 on a two-call trace. -/
theorem C8_rate_spacing_witness :
    admissionsIn (runRL {} initialRL [(0, 2, 1), (10, 3, 0)]) 0 ≤ 31 :=
  (C8_rate_spacing {} (by decide) [(0, 2, 1), (10, 3, 0)] (by decide)).2 0

/-! ## HTTP fetcher retries (src/crawler/crawler/http_client.py, C9)

`HTTPClient.get` is a `while attempt < retry_attempts` loop; `attempt` is
incremented at the top, so during a body execution it is 1-based. Each
attempt's outcome (a response with a status code, or one of the three
exception classes) is an oracle indexed by the attempt number. Each failed
attempt appends a crawl-log record (when `log_crawl`) and sleeps; the
status string and sleep amount per branch are the `if`/`elif`/`except`
chain of lines 126–237. -/

inductive AttemptOutcome where
  | response (status : Nat) (body : String)
  | timeout
  | clientError
  | otherError
  deriving DecidableEq, Repr

/-- What a loop iteration leaves behind: the crawl-log status string,
whether it was actually written (`log_crawl`), and the sleep that follows
(0 on the success path, which returns at once). -/
structure AttemptRecord where
  status : String
  logged : Bool
  slept : Nat
  deriving DecidableEq, Repr

structure HTTPConfig where
  retry_attempts : Nat := 3
  retry_delay : Nat := 2
  retry_backoff : Nat := 2
  deriving DecidableEq, Repr

def isSuccess : AttemptOutcome → Bool
  | AttemptOutcome.response status _ => status = 200
  | _ => false

def bodyOf : AttemptOutcome → Option String
  | AttemptOutcome.response status body =>
    if status = 200 then some body else none
  | _ => none

/-- The crawl-log status of a branch (http_client.py's status router and
except clauses). -/
def statusOf : AttemptOutcome → String
  | AttemptOutcome.response status _ =>
    if status = 200 then "success"
    else if status = 429 then "rate_limited"
    else if status = 403 ∨ status = 401 then "access_denied"
    else "http_" ++ toString status
  | AttemptOutcome.timeout => "timeout"
  | AttemptOutcome.clientError => "client_error"
  | AttemptOutcome.otherError => "error"

/-- The sleep after attempt `a` (1-based) for each branch: 429 gets the
doubled exponential backoff, 401/403 and other statuses and timeouts get
the LINEAR `retry_delay * attempt`, client and unexpected errors get the
exponential `retry_delay * retry_backoff ^ attempt`. -/
def sleepOf (cfg : HTTPConfig) (a : Nat) : AttemptOutcome → Nat
  | AttemptOutcome.response status _ =>
    if status = 200 then 0
    else if status = 429 then cfg.retry_delay * cfg.retry_backoff ^ a * 2
    else cfg.retry_delay * a
  | AttemptOutcome.timeout => cfg.retry_delay * a
  | AttemptOutcome.clientError => cfg.retry_delay * cfg.retry_backoff ^ a
  | AttemptOutcome.otherError => cfg.retry_delay * cfg.retry_backoff ^ a

/-- The retry loop: `fuel` iterations remain, `attempt` have run. Returns
the body on a 200 and otherwise loops, returning `none` when the fuel
(`retry_attempts`) is exhausted, together with the attempt records. -/
def httpGetLoop (cfg : HTTPConfig) (logCrawl : Bool)
    (oracle : Nat → AttemptOutcome) :
    Nat → Nat → Option String × List AttemptRecord
  | 0, _ => (none, [])
  | fuel + 1, attempt =>
    let a := attempt + 1
    let o := oracle a
    if isSuccess o then
      (bodyOf o, [⟨"success", logCrawl, 0⟩])
    else
      let t := httpGetLoop cfg logCrawl oracle fuel a
      (t.1, ⟨statusOf o, logCrawl, sleepOf cfg a o⟩ :: t.2)

def httpGet (cfg : HTTPConfig) (logCrawl : Bool)
    (oracle : Nat → AttemptOutcome) : Option String × List AttemptRecord :=
  httpGetLoop cfg logCrawl oracle cfg.retry_attempts 0

theorem statusOf_success (o : AttemptOutcome) (h : isSuccess o = true) :
    statusOf o = "success" := by
  cases o with
  | response status body =>
    simp only [isSuccess, decide_eq_true_eq] at h
    simp [statusOf, h]
  | timeout => cases h
  | clientError => cases h
  | otherError => cases h

theorem sleepOf_success (cfg : HTTPConfig) (a : Nat) (o : AttemptOutcome)
    (h : isSuccess o = true) : sleepOf cfg a o = 0 := by
  cases o with
  | response status body =>
    simp only [isSuccess, decide_eq_true_eq] at h
    simp [sleepOf, h]
  | timeout => cases h
  | clientError => cases h
  | otherError => cases h

theorem httpGetLoop_trace (cfg : HTTPConfig) (logCrawl : Bool)
    (oracle : Nat → AttemptOutcome) :
    ∀ (fuel attempt : Nat),
      (∀ i, i < (httpGetLoop cfg logCrawl oracle fuel attempt).2.length →
        (httpGetLoop cfg logCrawl oracle fuel attempt).2.get? i =
          some ⟨statusOf (oracle (attempt + i + 1)), logCrawl,
           sleepOf cfg (attempt + i + 1) (oracle (attempt + i + 1))⟩) ∧
      ((∀ k, attempt < k → k ≤ attempt + fuel → isSuccess (oracle k) = false) →
        (httpGetLoop cfg logCrawl oracle fuel attempt).1 = none ∧
        (httpGetLoop cfg logCrawl oracle fuel attempt).2.length = fuel) := by
  intro fuel
  induction fuel with
  | zero =>
    intro attempt
    exact ⟨fun i h => absurd h (by simp [httpGetLoop]),
           fun _ => ⟨rfl, rfl⟩⟩
  | succ fuel ih =>
    intro attempt
    rcases Bool.eq_false_or_eq_true (isSuccess (oracle (attempt + 1)))
      with hs | hs
    · constructor
      · intro i h
        have hlen :
            (httpGetLoop cfg logCrawl oracle (fuel + 1) attempt).2.length
              = 1 := by
          simp [httpGetLoop, hs]
        have hi : i = 0 := by omega
        subst hi
        simp only [httpGetLoop, hs]
        rw [if_pos trivial]
        rw [statusOf_success (oracle (attempt + 0 + 1)) (by simpa using hs),
            sleepOf_success cfg (attempt + 0 + 1) (oracle (attempt + 0 + 1))
              (by simpa using hs)]
        rfl
      · intro hk
        have := hk (attempt + 1) (by omega) (by omega)
        rw [hs] at this
        cases this
    · obtain ⟨ih1, ih2⟩ := ih (attempt + 1)
      have hlen :
          (httpGetLoop cfg logCrawl oracle (fuel + 1) attempt).2.length
            = (httpGetLoop cfg logCrawl oracle fuel (attempt + 1)).2.length
              + 1 := by
        simp [httpGetLoop, hs]
      constructor
      · intro i h
        simp only [httpGetLoop, hs]
        rw [if_neg (by simp)]
        cases i with
        | zero =>
          exact List.get?_cons_zero
        | succ i2 =>
          rw [List.get?_cons_succ]
          have h2 : i2 <
              (httpGetLoop cfg logCrawl oracle fuel (attempt + 1)).2.length := by
            omega
          have := ih1 i2 h2
          have harith : attempt + 1 + i2 + 1 = attempt + (i2 + 1) + 1 := by
            omega
          rw [harith] at this
          exact this
      · intro hk
        obtain ⟨hnone, hlen2⟩ :=
          ih2 (fun k h1 h2 => hk k (by omega) (by omega))
        refine ⟨?_, by omega⟩
        have hfst :
            (httpGetLoop cfg logCrawl oracle (fuel + 1) attempt).1
              = (httpGetLoop cfg logCrawl oracle fuel (attempt + 1)).1 := by
          simp [httpGetLoop, hs]
        rw [hfst]
        exact hnone

/-- C9 as stated is false for timeouts: a run whose three attempts all
time out logs status timeout each time but sleeps 2 s, 4 s, 6 s — the
linear `retry_delay * attempt`, not the claimed exponential
`retry_delay * backoff ^ attempt` = 4 s, 8 s, 16 s. -/
theorem C9_counterexample :
    (httpGet {} true (fun _ => AttemptOutcome.timeout)).1 = none ∧
    (httpGet {} true (fun _ => AttemptOutcome.timeout)).2.map
      AttemptRecord.status = ["timeout", "timeout", "timeout"] ∧
    (httpGet {} true (fun _ => AttemptOutcome.timeout)).2.map
      AttemptRecord.slept = [2, 4, 6] ∧
    [2, 4, 6] ≠ [2 * 2 ^ 1, 2 * 2 ^ 2, 2 * 2 ^ 3] := by
  refine ⟨rfl, rfl, rfl, by decide⟩

/-- C9 amended: when no attempt succeeds, get returns none after
retry_attempts attempts; the i-th record (attempt i+1) carries the
branch's crawl-log status and sleep, where a timeout is logged timeout
and sleeps LINEARLY (retry_delay * attempt) while a transport error is
logged client_error and sleeps exponentially (retry_delay * backoff ^
attempt, attempt 1-based). -/
theorem C9_retry_trace (cfg : HTTPConfig) (logCrawl : Bool)
    (oracle : Nat → AttemptOutcome)
    (hfail : ∀ k, 1 ≤ k → k ≤ cfg.retry_attempts →
      isSuccess (oracle k) = false) :
    (httpGet cfg logCrawl oracle).1 = none ∧
    (httpGet cfg logCrawl oracle).2.length = cfg.retry_attempts ∧
    (∀ i, i < (httpGet cfg logCrawl oracle).2.length →
      (httpGet cfg logCrawl oracle).2.get? i =
        some ⟨statusOf (oracle (i + 1)), logCrawl,
         sleepOf cfg (i + 1) (oracle (i + 1))⟩) ∧
    (∀ k : Nat, statusOf AttemptOutcome.timeout = "timeout" ∧
      sleepOf cfg k AttemptOutcome.timeout = cfg.retry_delay * k ∧
      statusOf AttemptOutcome.clientError = "client_error" ∧
      sleepOf cfg k AttemptOutcome.clientError =
        cfg.retry_delay * cfg.retry_backoff ^ k) := by
  obtain ⟨h1, h2⟩ := httpGetLoop_trace cfg logCrawl oracle
    cfg.retry_attempts 0
  obtain ⟨hnone, hlen⟩ := h2 (fun k hk1 hk2 => hfail k hk1 (by omega))
  refine ⟨hnone, hlen, ?_, fun k => ⟨rfl, rfl, rfl, rfl⟩⟩
  intro i h
  have := h1 i h
  simpa using this

/-- Witness for C9 at the all-timeouts oracle with default settings. -/
theorem C9_retry_trace_witness :
    (httpGet {} true (fun _ => AttemptOutcome.clientError)).1 = none :=
  (C9_retry_trace {} true (fun _ => AttemptOutcome.clientError)
    (fun _ _ _ => rfl)).1

end Crawler
